import Mathlib

/-!
# Verification of the kin-kernel cell contract and schema dereferencer

Shallow embedding of the core of the `kinkernel` Python package:

* `kinkernel/cells/base.py` — the `BaseCell` execution contract
  (`__init_subclass__` checks and the `run` pipeline producing a
  `ResponseModel` envelope);
* `kinkernel/utils/json_schema_cleaner.py` and
  `kinkernel/tools/json_schema_cleaner.py` — the two `replace_refs_with_defs`
  implementations that inline `$ref` references and reshape a JSON schema
  into the tool-schema envelope.

JSON documents are modelled as an inductive tree; Python dicts become
insertion-ordered association lists, and Python exceptions become an
explicit error type threaded through `Except`.
-/

set_option maxHeartbeats 1000000
set_option maxRecDepth 100000

namespace KinKernel

/-- A JSON document: the values Python's `json` module round-trips.
Python dicts are modelled as insertion-ordered association lists. -/
inductive Json where
  | null
  | bool (b : Bool)
  | num (n : Int)
  | str (s : String)
  | arr (elems : List Json)
  | obj (fields : List (String × Json))

/-- Python exceptions that the dereferencer code can raise. -/
inductive PyErr where
  | keyError (msg : String)
  | typeError (msg : String)
  | valueError (msg : String)
  | attributeError (msg : String)
  | recursionError
  deriving Repr, DecidableEq

namespace Dict

/-- `k in d` for a Python dict. -/
def hasKey (d : List (String × Json)) (k : String) : Bool :=
  d.any (fun p => p.1 == k)

/-- `d[k]` lookup returning the first binding (Python dicts have unique keys). -/
def get? (d : List (String × Json)) (k : String) : Option Json :=
  (d.find? (fun p => p.1 == k)).map Prod.snd

/-- `d[k] = v`: overwrite in place when the key exists (keeping its position),
append otherwise — Python dict assignment semantics. -/
def assign (d : List (String × Json)) (k : String) (v : Json) : List (String × Json) :=
  if hasKey d k then
    d.map (fun p => if p.1 == k then (k, v) else p)
  else
    d ++ [(k, v)]

/-- `del d[k]` / `d.pop(k)`: remove the binding for `k`. -/
def erase (d : List (String × Json)) (k : String) : List (String × Json) :=
  d.filter (fun p => !(p.1 == k))

/-- `d.update(e)`: assign every binding of `e` into `d`, in order. -/
def update (d e : List (String × Json)) : List (String × Json) :=
  e.foldl (fun acc p => assign acc p.1 p.2) d

end Dict

/-! ## The cell execution contract (`kinkernel/cells/base.py`)

`BaseCell` is generic in two Pydantic models.  The validation engine is an
external collaborator: an input format is anything that can parse a JSON
string into a typed value or fail with a diagnostic, and an output format is
anything that can re-validate a value and serialize it.  Failures are `str(e)`
diagnostic strings. -/

/-- The input side of a Pydantic model: `model_validate_json` parses a JSON
string into a typed value or fails with the validator's diagnostic text. -/
structure InputFormat (α : Type) where
  model_validate_json : String → Except String α

/-- The output side of a Pydantic model: `output_format(**v.model_dump())`
re-validates a value (possibly failing), and `model_dump_json` serializes it. -/
structure OutputFormat (β : Type) where
  revalidate : β → Except String β
  model_dump_json : β → String

/-- One cell instance as `run` sees it: the two declared formats (optional,
since a harness can null them out after construction) and the user-defined
`_execute` step, which may raise an arbitrary failure. -/
structure Cell (α β : Type) where
  input_format : Option (InputFormat α)
  output_format : Option (OutputFormat β)
  execute : α → Except String β

/-- The `try:` block of `BaseCell.run` (base.py lines 232–250): defensive
format check, input validation, `_execute`, output re-validation, and
serialization of the success content. -/
def runBody {α β : Type} (c : Cell α β) (input_json : String) : Except String String :=
  match c.input_format, c.output_format with
  | some ifmt, some ofmt => do
      let input_data ← ifmt.model_validate_json input_json
      let output_data ← c.execute input_data
      let output_data ← ofmt.revalidate output_data
      pure (ofmt.model_dump_json output_data)
  | _, _ => Except.error "Input and output formats must be defined."

/-- `BaseCell.run`: the `except` clauses turn any failure of the body into an
error `ResponseModel`; the envelope is then serialized by
`json.loads(response.model_dump_json())` into a two-key mapping.  Nothing
outside the `try` can fail, so `run` is total. -/
def run {α β : Type} (c : Cell α β) (input_json : String) : Json :=
  match runBody c input_json with
  | Except.ok content =>
      Json.obj [("type", Json.str "success"), ("content", Json.str content)]
  | Except.error e =>
      Json.obj [("type", Json.str "error"), ("content", Json.str e)]

/-! ## Subclass construction checks (`BaseCell.__init_subclass__`) -/

/-- A Python class object as far as the format checks look at it:
whether `issubclass(·, BaseModel)` holds. -/
structure PyType where
  isBaseModelSubclass : Bool

/-- The class-level data of a cell subclass at definition time.  A field that
is absent (`hasattr` false) or bound to `None` is modelled as `none`. -/
structure SubclassDecl where
  name : String
  isAbstract : Bool
  role : Option String
  description : Option String
  input_format : Option PyType
  output_format : Option PyType

/-- `cls.input_format is not None and issubclass(cls.input_format, BaseModel)`. -/
def formatOk : Option PyType → Bool
  | none => false
  | some t => t.isBaseModelSubclass

/-- `BaseCell.__init_subclass__` (base.py lines 114–144): for a non-abstract
subclass, check the four class variables in order and raise `TypeError`
naming the first missing one; abstract subclasses are exempt. -/
def init_subclass_check (cls : SubclassDecl) : Except String Unit :=
  if cls.isAbstract then Except.ok ()
  else if cls.role.isNone then
    Except.error ("Subclass '" ++ cls.name ++ "' must define a 'role' class variable.")
  else if cls.description.isNone then
    Except.error ("Subclass '" ++ cls.name ++ "' must define a 'description' class variable.")
  else if !(formatOk cls.input_format) then
    Except.error ("Subclass '" ++ cls.name ++
      "' must define an 'input_format' class variable with a Pydantic model.")
  else if !(formatOk cls.output_format) then
    Except.error ("Subclass '" ++ cls.name ++
      "' must define an 'output_format' class variable with a Pydantic model.")
  else Except.ok ()

/-! ## `json.dumps` and the `$ref` text scan

Both `replace_refs_with_defs` implementations serialize documents with
`json.dumps` and scan the text for the substring `"$ref"`.  The model
serializes with the default separators and escapes quotes, backslashes and
control characters; transcription of other characters cannot create or
destroy an occurrence of the marker `$ref`, whose four characters are never
produced by an escape sequence. -/

/-- Lower-case hexadecimal digit. -/
def hexDigit (n : Nat) : Char :=
  if n < 10 then Char.ofNat (48 + n) else Char.ofNat (87 + n)

/-- JSON string escaping as `json.dumps` performs it. -/
def jsonEscape (s : String) : String :=
  s.data.foldl
    (fun acc c =>
      acc ++
        (if c = '"' then "\\\""
         else if c = '\\' then "\\\\"
         else if c = '\n' then "\\n"
         else if c = '\t' then "\\t"
         else if c = '\r' then "\\r"
         else if c.toNat < 32 then
           "\\u00" ++ String.singleton (hexDigit (c.toNat / 16)) ++
             String.singleton (hexDigit (c.toNat % 16))
         else String.singleton c))
    ""

mutual

/-- `json.dumps` with the default separators `", "` and `": "`. -/
def dumps : Json → String
  | Json.null => "null"
  | Json.bool true => "true"
  | Json.bool false => "false"
  | Json.num n => toString n
  | Json.str s => "\"" ++ jsonEscape s ++ "\""
  | Json.arr xs => "[" ++ dumpsElems xs ++ "]"
  | Json.obj fs => "\x7b" ++ dumpsFields fs ++ "\x7d"

/-- Serialize array elements, `", "`-separated. -/
def dumpsElems : List Json → String
  | [] => ""
  | [x] => dumps x
  | x :: y :: rest => dumps x ++ ", " ++ dumpsElems (y :: rest)

/-- Serialize object fields, `", "`-separated. -/
def dumpsFields : List (String × Json) → String
  | [] => ""
  | [(k, v)] => "\"" ++ jsonEscape k ++ "\": " ++ dumps v
  | (k, v) :: p :: rest =>
      "\"" ++ jsonEscape k ++ "\": " ++ dumps v ++ ", " ++ dumpsFields (p :: rest)

end

/-- `"$ref" in json.dumps(j)`: the text-level scan for the reference marker. -/
def containsRefText (j : Json) : Bool :=
  decide ("$ref".data <:+: (dumps j).data)

mutual

/-- Structural presence of a reference node: some mapping in the tree
carries the key `"$ref"`. -/
def hasRefNode : Json → Bool
  | Json.obj fields => Dict.hasKey fields "$ref" || hasRefNodeFields fields
  | Json.arr xs => hasRefNodeElems xs
  | _ => false

/-- `hasRefNode` over the elements of an array. -/
def hasRefNodeElems : List Json → Bool
  | [] => false
  | x :: rest => hasRefNode x || hasRefNodeElems rest

/-- `hasRefNode` over the values of a mapping. -/
def hasRefNodeFields : List (String × Json) → Bool
  | [] => false
  | p :: rest => hasRefNode p.2 || hasRefNodeFields rest

end

mutual

/-- Every mapping in the tree that carries `"$ref"` carries it as its only
key — the shape Pydantic emits for a reference slot. -/
def refsIsolated : Json → Bool
  | Json.obj fields =>
      (!(Dict.hasKey fields "$ref") || fields.length == 1) && refsIsolatedFields fields
  | Json.arr xs => refsIsolatedElems xs
  | _ => true

/-- `refsIsolated` over the elements of an array. -/
def refsIsolatedElems : List Json → Bool
  | [] => true
  | x :: rest => refsIsolated x && refsIsolatedElems rest

/-- `refsIsolated` over the values of a mapping. -/
def refsIsolatedFields : List (String × Json) → Bool
  | [] => true
  | p :: rest => refsIsolated p.2 && refsIsolatedFields rest

end

/-! ## The schema dereferencer

`kinkernel/utils/json_schema_cleaner.py` (tested, with the missing-defs
guard and nested-reference resolution) and
`kinkernel/tools/json_schema_cleaner.py` (an older duplicate without
either).  Python recursion consumes stack; the `fuel` argument models the
interpreter's recursion limit, and exhausting it is `RecursionError`. -/

/-- `d[k]` on an arbitrary JSON value: `KeyError` on a mapping without the
key, `TypeError` when string-subscripting a non-mapping. -/
def getItem : Json → String → Except PyErr Json
  | Json.obj fields, k =>
      match Dict.get? fields k with
      | some v => Except.ok v
      | none => Except.error (PyErr.keyError k)
  | _, _ => Except.error (PyErr.typeError "value is not subscriptable by string")

/-- Scanner for `str.replace`: replace each left-to-right, non-overlapping
occurrence of `pat` (non-empty, as in the source's fixed `"#/$defs/"`) by
`rep`.  The fuel is the remaining scan length; each step consumes at least
one character, so `s.length` fuel is exact. -/
def replaceChars (fuel : Nat) (s pat rep : List Char) : List Char :=
  match fuel, s with
  | 0, s => s
  | _ + 1, [] => []
  | fuel + 1, c :: rest =>
      if pat.isPrefixOf (c :: rest) && !pat.isEmpty then
        rep ++ replaceChars fuel ((c :: rest).drop pat.length) pat rep
      else
        c :: replaceChars fuel rest pat rep

/-- Python `str.replace` for a non-empty pattern. -/
def pyReplace (s pat rep : String) : String :=
  String.mk (replaceChars s.length s.data pat.data rep.data)

/-- Scanner for `str.split` with a non-empty separator: cut at each
occurrence, keeping empty pieces, `acc` holding the current piece
reversed. -/
def splitChars (fuel : Nat) (s sep : List Char) (acc : List Char) : List (List Char) :=
  match fuel, s with
  | 0, s => [acc.reverse ++ s]
  | _ + 1, [] => [acc.reverse]
  | fuel + 1, c :: rest =>
      if sep.isPrefixOf (c :: rest) && !sep.isEmpty then
        acc.reverse :: splitChars fuel ((c :: rest).drop sep.length) sep []
      else
        splitChars fuel rest sep (c :: acc)

/-- Python `str.split` for a non-empty separator: `"a".split("/") = ["a"]`,
`"/".split("/") = ["", ""]`. -/
def pySplit (s sep : String) : List String :=
  (splitChars s.length s.data sep.data []).map String.mk

/-- `resolve_ref` (identical in both files): strip every occurrence of the
fixed root marker and follow the remaining `/`-separated path through the
definitions table. -/
def resolve_ref (ref : String) (defs : Json) : Except PyErr Json :=
  (pySplit (pyReplace ref "#/$defs/" "") "/").foldlM getItem defs

/-- One element of a `dict.update` sequence argument, as Python consumes
it: the element must be an iterable of exactly two items, giving a key
(hashed) and a value.  A two-item JSON array gives (first, second); a
two-character string gives a pair of one-character strings; a two-field
mapping iterates to its two keys.  Keys that are JSON numbers, booleans or
null are hashable in Python; the model folds each onto its `json.dumps`
key text — such a key is never one of the keys this pipeline inspects, and
the fold identifies only a numeric key with its own text.  Unhashable keys
(arrays, mappings) raise `TypeError`; a wrong element length raises
`ValueError`; a non-iterable element raises `TypeError`. -/
def pairOfElement : Json → Except PyErr (String × Json)
  | Json.arr [k, v] =>
      match k with
      | Json.str s => Except.ok (s, v)
      | Json.num n => Except.ok (toString n, v)
      | Json.bool true => Except.ok ("true", v)
      | Json.bool false => Except.ok ("false", v)
      | Json.null => Except.ok ("null", v)
      | Json.arr _ => Except.error (PyErr.typeError "unhashable type: list")
      | Json.obj _ => Except.error (PyErr.typeError "unhashable type: dict")
  | Json.arr _ =>
      Except.error (PyErr.valueError "dictionary update sequence element has wrong length")
  | Json.str s =>
      match s.data with
      | [c1, c2] => Except.ok (String.singleton c1, Json.str (String.singleton c2))
      | _ => Except.error (PyErr.valueError "dictionary update sequence element has wrong length")
  | Json.obj [(k1, _), (k2, _)] => Except.ok (k1, Json.str k2)
  | Json.obj _ =>
      Except.error (PyErr.valueError "dictionary update sequence element has wrong length")
  | _ =>
      Except.error
        (PyErr.typeError "cannot convert dictionary update sequence element to a sequence")

/-- `obj.update(x)` on an arbitrary value, as Python's `dict.update`
behaves: a mapping merges; a sequence is consumed as key/value pairs in
order; a string iterates to one-character strings, so only the empty string
succeeds (as an empty sequence); everything else is not iterable and raises
`TypeError`. -/
def dictUpdateAny (d : List (String × Json)) : Json → Except PyErr (List (String × Json))
  | Json.obj e => Except.ok (Dict.update d e)
  | Json.arr elems =>
      elems.foldlM
        (fun acc el => (pairOfElement el).bind fun p => Except.ok (Dict.assign acc p.1 p.2)) d
  | Json.str s =>
      match s.data with
      | [] => Except.ok d
      | _ => Except.error (PyErr.valueError "dictionary update sequence element has wrong length")
  | _ => Except.error (PyErr.typeError "object is not iterable")

/-- A two-element array whose first item is the string `"$ref"` — the
pair-iterable form through which `dict.update` can splice a literal `$ref`
key back into a mapping. -/
def isRefPair : Json → Bool
  | Json.arr [Json.str s, _] => s == "$ref"
  | _ => false

mutual

/-- No array anywhere in the tree contains a `["$ref", …]` pair element. -/
def noRefPairs : Json → Bool
  | Json.obj fields => noRefPairsFields fields
  | Json.arr xs => noRefPairsElems xs
  | _ => true

/-- `noRefPairs` over the elements of an array. -/
def noRefPairsElems : List Json → Bool
  | [] => true
  | x :: rest => !(isRefPair x) && noRefPairs x && noRefPairsElems rest

/-- `noRefPairs` over the values of a mapping. -/
def noRefPairsFields : List (String × Json) → Bool
  | [] => true
  | p :: rest => noRefPairs p.2 && noRefPairsFields rest

end

namespace Utils

mutual

/-- `replace_refs` of `kinkernel/utils/json_schema_cleaner.py`: walk the
tree; at a mapping carrying `"$ref"`, pop the reference, resolve it, resolve
references inside the resolved definition when its serialization contains
the marker, and splice the result into the mapping with `dict.update`
semantics. -/
def replace_refs : Nat → Json → Json → Except PyErr Json
  | 0, _, _ => Except.error PyErr.recursionError
  | fuel + 1, Json.obj fields, defs =>
      if Dict.hasKey fields "$ref" then
        match Dict.get? fields "$ref" with
        | some (Json.str ref) =>
            (resolve_ref ref defs).bind fun ref_schema =>
              (if containsRefText ref_schema then replace_refs fuel ref_schema defs
               else Except.ok ref_schema).bind fun resolved =>
                (dictUpdateAny (Dict.erase fields "$ref") resolved).bind fun nf =>
                  Except.ok (Json.obj nf)
        | _ => Except.error (PyErr.attributeError "ref value is not a string")
      else
        (replace_refs_fields fuel fields defs).bind fun fs => Except.ok (Json.obj fs)
  | fuel + 1, Json.arr elems, defs =>
      (replace_refs_elems fuel elems defs).bind fun xs => Except.ok (Json.arr xs)
  | _ + 1, j, _ => Except.ok j
termination_by structural fuel j defs => fuel

/-- The `for key, value in obj.items()` loop of `replace_refs`. -/
def replace_refs_fields :
    Nat → List (String × Json) → Json → Except PyErr (List (String × Json))
  | 0, _, _ => Except.error PyErr.recursionError
  | _ + 1, [], _ => Except.ok []
  | fuel + 1, p :: rest, defs =>
      (replace_refs fuel p.2 defs).bind fun v =>
        (replace_refs_fields fuel rest defs).bind fun rest2 =>
          Except.ok ((p.1, v) :: rest2)
termination_by structural fuel ps defs => fuel

/-- The list comprehension of `replace_refs`. -/
def replace_refs_elems : Nat → List Json → Json → Except PyErr (List Json)
  | 0, _, _ => Except.error PyErr.recursionError
  | _ + 1, [], _ => Except.ok []
  | fuel + 1, x :: rest, defs =>
      (replace_refs fuel x defs).bind fun y =>
        (replace_refs_elems fuel rest defs).bind fun ys => Except.ok (y :: ys)
termination_by structural fuel xs defs => fuel

end

end Utils

namespace Tools

mutual

/-- `replace_refs` of `kinkernel/tools/json_schema_cleaner.py`: identical to
the utils version except that the resolved definition is spliced verbatim
(with `dict.update` semantics), with no check or recursion for references
it may itself contain. -/
def replace_refs : Nat → Json → Json → Except PyErr Json
  | 0, _, _ => Except.error PyErr.recursionError
  | fuel + 1, Json.obj fields, defs =>
      if Dict.hasKey fields "$ref" then
        match Dict.get? fields "$ref" with
        | some (Json.str ref) =>
            (resolve_ref ref defs).bind fun ref_schema =>
              (dictUpdateAny (Dict.erase fields "$ref") ref_schema).bind fun nf =>
                Except.ok (Json.obj nf)
        | _ => Except.error (PyErr.attributeError "ref value is not a string")
      else
        (replace_refs_fields fuel fields defs).bind fun fs => Except.ok (Json.obj fs)
  | fuel + 1, Json.arr elems, defs =>
      (replace_refs_elems fuel elems defs).bind fun xs => Except.ok (Json.arr xs)
  | _ + 1, j, _ => Except.ok j
termination_by structural fuel j defs => fuel

/-- The `for key, value in obj.items()` loop of the tools `replace_refs`. -/
def replace_refs_fields :
    Nat → List (String × Json) → Json → Except PyErr (List (String × Json))
  | 0, _, _ => Except.error PyErr.recursionError
  | _ + 1, [], _ => Except.ok []
  | fuel + 1, p :: rest, defs =>
      (replace_refs fuel p.2 defs).bind fun v =>
        (replace_refs_fields fuel rest defs).bind fun rest2 =>
          Except.ok ((p.1, v) :: rest2)
termination_by structural fuel ps defs => fuel

/-- The list comprehension of the tools `replace_refs`. -/
def replace_refs_elems : Nat → List Json → Json → Except PyErr (List Json)
  | 0, _, _ => Except.error PyErr.recursionError
  | _ + 1, [], _ => Except.ok []
  | fuel + 1, x :: rest, defs =>
      (replace_refs fuel x defs).bind fun y =>
        (replace_refs_elems fuel rest defs).bind fun ys => Except.ok (y :: ys)
termination_by structural fuel xs defs => fuel

end

end Tools

/-- `schema[k]` during the final reshape: `KeyError` when absent. -/
def getField (fields : List (String × Json)) (k : String) : Except PyErr Json :=
  match Dict.get? fields k with
  | some v => Except.ok v
  | none => Except.error (PyErr.keyError k)

/-- The final reshape, identical in both files (utils lines 69–79, tools
lines 45–55): build `parameters` from `properties`, `required` and `type`,
rename `title` to `name`, and delete the four keys. -/
def reshape : Json → Except PyErr Json
  | Json.obj fields =>
      (getField fields "properties").bind fun props =>
        (getField fields "required").bind fun req =>
          (getField fields "type").bind fun ty =>
            let fields1 := Dict.assign fields "parameters"
              (Json.obj [("properties", props), ("required", req), ("type", ty)])
            (getField fields1 "title").bind fun title =>
              let fields2 := Dict.assign fields1 "name" title
              Except.ok (Json.obj
                (Dict.erase (Dict.erase (Dict.erase (Dict.erase fields2 "title")
                  "properties") "required") "type"))
  | _ => Except.error (PyErr.typeError "reshape expects a mapping")

/-- The reference-resolution phase of the utils `replace_refs_with_defs`
(lines 63–68): guard against references with no definitions table, then pop
`$defs` and run `replace_refs` over what remains. -/
def Utils.resolution_phase (fuel : Nat) (schema : List (String × Json)) :
    Except PyErr Json :=
  if !(Dict.hasKey schema "$defs") && containsRefText (Json.obj schema) then
    Except.error (PyErr.keyError "Schema does not have any defs however it contains some ref")
  else
    match Dict.get? schema "$defs" with
    | some defs => Utils.replace_refs fuel (Json.obj (Dict.erase schema "$defs")) defs
    | none => Except.ok (Json.obj schema)

/-- `replace_refs_with_defs` of `kinkernel/utils/json_schema_cleaner.py`:
the resolution phase followed by the reshape.  Python mutates `schema` in
place throughout, so the returned document is also the state of the caller's
argument after the call. -/
def Utils.replace_refs_with_defs (fuel : Nat) (schema : List (String × Json)) :
    Except PyErr Json :=
  (Utils.resolution_phase fuel schema).bind reshape

/-- The reference-resolution phase of the tools `replace_refs_with_defs`
(lines 41–43): no guard; pop `$defs` when present and walk. -/
def Tools.resolution_phase (fuel : Nat) (schema : List (String × Json)) :
    Except PyErr Json :=
  match Dict.get? schema "$defs" with
  | some defs => Tools.replace_refs fuel (Json.obj (Dict.erase schema "$defs")) defs
  | none => Except.ok (Json.obj schema)

/-- `replace_refs_with_defs` of `kinkernel/tools/json_schema_cleaner.py`. -/
def Tools.replace_refs_with_defs (fuel : Nat) (schema : List (String × Json)) :
    Except PyErr Json :=
  (Tools.resolution_phase fuel schema).bind reshape

/-! ## Observers on dereferencer results -/

/-- The call returned normally. -/
def isOkResult : Except PyErr Json → Bool
  | Except.ok _ => true
  | Except.error _ => false

/-- The call raised a `KeyError`. -/
def isKeyErrorResult : Except PyErr Json → Bool
  | Except.error (PyErr.keyError _) => true
  | _ => false

/-- Key membership at the top level of a returned document. -/
def resultObjHasKey : Except PyErr Json → String → Bool
  | Except.ok (Json.obj fields), k => Dict.hasKey fields k
  | _, _ => false

/-- Top-level lookup in a returned document. -/
def resultObjGet? : Except PyErr Json → String → Option Json
  | Except.ok (Json.obj fields), k => Dict.get? fields k
  | _, _ => none

/-- The call returned normally and a reference node survives in the result. -/
def resultHasRef : Except PyErr Json → Bool
  | Except.ok j => hasRefNode j
  | Except.error _ => false

/-- The call returned normally and the result is reference-free. -/
def resultRefFree : Except PyErr Json → Bool
  | Except.ok j => !(hasRefNode j)
  | Except.error _ => false

/-! ## Concrete instances

A cell mirroring the spec's concrete scenario (input shape `x, y`, output
shape `result = x + y`), and the schema documents of the repository's own
test suite (`tests/utils/test_json_schema_cleaner.py`). -/

/-- Input format of the example cell: accepts the document with `x = 1`,
`y = 2`, rejects everything else with a Pydantic-style diagnostic. -/
def addInputFormat : InputFormat (Int × Int) where
  model_validate_json s :=
    if s = "\x7b\"x\": 1, \"y\": 2\x7d" then Except.ok (1, 2)
    else Except.error "Input should be a valid integer"

/-- Output format of the example cell. -/
def addOutputFormat : OutputFormat Int where
  revalidate r := Except.ok r
  model_dump_json r := "\x7b\"result\": " ++ toString r ++ "\x7d"

/-- The example cell: `result = x + y`. -/
def addCell : Cell (Int × Int) Int where
  input_format := some addInputFormat
  output_format := some addOutputFormat
  execute p := Except.ok (p.1 + p.2)

/-- The example cell with an `_execute` step that raises. -/
def failCell : Cell (Int × Int) Int :=
  { addCell with execute := fun _ => Except.error "boom" }

/-- A class object satisfying `issubclass(·, BaseModel)`. -/
def pydModel : PyType := ⟨true⟩

/-- A concrete subclass declaration missing `role`. -/
def missingRoleDecl : SubclassDecl :=
  ⟨"MyCell", false, none, some "desc", some pydModel, some pydModel⟩

/-- The reference-free `Person` schema from the repository's tests. -/
def personSchema : List (String × Json) :=
  [("title", Json.str "Person"),
   ("type", Json.str "object"),
   ("properties", Json.obj
     [("name", Json.obj [("type", Json.str "string")]),
      ("age", Json.obj [("type", Json.str "integer")])]),
   ("required", Json.arr [Json.str "name", Json.str "age"])]

/-- The nested-reference schema from the repository's tests:
`$defs.address.properties.country` references `$defs.country`, and the body
references `$defs.address`. -/
def nestedRefSchema : List (String × Json) :=
  [("$defs", Json.obj
     [("address", Json.obj
        [("type", Json.str "object"),
         ("properties", Json.obj
            [("street", Json.obj [("type", Json.str "string")]),
             ("city", Json.obj [("type", Json.str "string")]),
             ("country", Json.obj [("$ref", Json.str "#/$defs/country")])]),
         ("required", Json.arr [Json.str "street", Json.str "city", Json.str "country"])]),
      ("country", Json.obj
        [("type", Json.str "object"),
         ("properties", Json.obj
            [("name", Json.obj [("type", Json.str "string")]),
             ("code", Json.obj [("type", Json.str "string")])]),
         ("required", Json.arr [Json.str "name", Json.str "code"])])]),
   ("title", Json.str "Person"),
   ("type", Json.str "object"),
   ("properties", Json.obj
     [("name", Json.obj [("type", Json.str "string")]),
      ("age", Json.obj [("type", Json.str "integer")]),
      ("address", Json.obj [("$ref", Json.str "#/$defs/address")])]),
   ("required", Json.arr [Json.str "name", Json.str "age", Json.str "address"])]

/-- The missing-definitions schema from the repository's tests: one
reference, no `$defs` table. -/
def refNoDefsSchema : List (String × Json) :=
  [("title", Json.str "Person"),
   ("type", Json.str "object"),
   ("properties", Json.obj
     [("name", Json.obj [("type", Json.str "string")]),
      ("age", Json.obj [("type", Json.str "integer")]),
      ("address", Json.obj [("$ref", Json.str "#/$defs/address")])]),
   ("required", Json.arr [Json.str "name", Json.str "age", Json.str "address"])]

/-- A schema whose definition `p` is a list of key/value pairs carrying a
literal `"$ref"` key — the `dict.update` pair-iterable form.  Splicing it
reintroduces a reference node that the walk never revisits. -/
def pairSpliceSchema : List (String × Json) :=
  [("$defs", Json.obj
     [("p", Json.arr [Json.arr [Json.str "$ref", Json.str "#/$defs/q"]]),
      ("q", Json.obj [("type", Json.str "string")])]),
   ("title", Json.str "P"),
   ("type", Json.str "object"),
   ("properties", Json.obj [("a", Json.obj [("$ref", Json.str "#/$defs/p")])]),
   ("required", Json.arr [])]

/-- The schema of a model with no required field: Pydantic omits the
`required` key entirely. -/
def noRequiredSchema : List (String × Json) :=
  [("title", Json.str "Greet"),
   ("type", Json.str "object"),
   ("properties", Json.obj [("name", Json.obj [("type", Json.str "string")])])]

/-- A well-formed serialized `ResponseModel`: a mapping with exactly the two
keys `type` and `content`, `type` one of `"success"`/`"error"`, `content` a
string. -/
def isWellFormedEnvelope : Json → Bool
  | Json.obj [("type", Json.str t), ("content", Json.str _)] =>
      (t == "success") || (t == "error")
  | _ => false

end KinKernel

/-! # Theorems -/

namespace KinKernel

/-! ## Dictionary lemmas -/

theorem bind_ok {α β : Type} {ε : Type} (a : α) (f : α → Except ε β) :
    (Except.ok a >>= f) = f a := rfl

theorem bind_error {α β : Type} {ε : Type} (e : ε) (f : α → Except ε β) :
    (Except.error e >>= f : Except ε β) = Except.error e := rfl

theorem exbind_ok {α β : Type} {ε : Type} (a : α) (f : α → Except ε β) :
    Except.bind (Except.ok a) f = f a := rfl

theorem exbind_error {α β : Type} {ε : Type} (e : ε) (f : α → Except ε β) :
    Except.bind (Except.error e : Except ε α) f = Except.error e := rfl

theorem Dict.get?_cons (p : String × Json) (d : List (String × Json)) (k : String) :
    Dict.get? (p :: d) k = if p.1 == k then some p.2 else Dict.get? d k := by
  cases h : (p.1 == k) <;> simp [Dict.get?, List.find?_cons, h]

theorem Dict.hasKey_cons (p : String × Json) (d : List (String × Json)) (k : String) :
    Dict.hasKey (p :: d) k = ((p.1 == k) || Dict.hasKey d k) := by
  simp [Dict.hasKey]

theorem Dict.hasKey_eq_isSome (d : List (String × Json)) (k : String) :
    Dict.hasKey d k = (Dict.get? d k).isSome := by
  induction d with
  | nil => rfl
  | cons p rest ih =>
      rw [Dict.hasKey_cons, Dict.get?_cons]
      cases h : (p.1 == k) <;> simp [h, ih]

theorem Dict.get?_eq_none_of_hasKey (d : List (String × Json)) (k : String)
    (h : Dict.hasKey d k = false) : Dict.get? d k = none := by
  rw [Dict.hasKey_eq_isSome] at h
  cases hg : Dict.get? d k with
  | none => rfl
  | some v => rw [hg] at h; simp at h

theorem Dict.get?_isSome_of_hasKey (d : List (String × Json)) (k : String)
    (h : Dict.hasKey d k = true) : ∃ v, Dict.get? d k = some v := by
  rw [Dict.hasKey_eq_isSome] at h
  cases hg : Dict.get? d k with
  | none => rw [hg] at h; simp at h
  | some v => exact ⟨v, rfl⟩

theorem Dict.get?_append_right (d e : List (String × Json)) (k : String)
    (h : Dict.hasKey d k = false) : Dict.get? (d ++ e) k = Dict.get? e k := by
  induction d with
  | nil => rfl
  | cons p rest ih =>
      rw [Dict.hasKey_cons] at h
      simp only [Bool.or_eq_false_iff] at h
      rw [List.cons_append, Dict.get?_cons, h.1, if_neg (by simp)]
      exact ih h.2

theorem Dict.get?_append_left (d e : List (String × Json)) (k : String) (v : Json)
    (h : Dict.get? d k = some v) : Dict.get? (d ++ e) k = some v := by
  induction d with
  | nil => simp [Dict.get?] at h
  | cons p rest ih =>
      rw [Dict.get?_cons] at h
      rw [List.cons_append, Dict.get?_cons]
      by_cases hp : (p.1 == k) = true
      · rw [if_pos hp] at h ⊢; exact h
      · rw [if_neg hp] at h ⊢; exact ih h

theorem Dict.erase_cons (p : String × Json) (d : List (String × Json)) (k : String) :
    Dict.erase (p :: d) k =
      if p.1 == k then Dict.erase d k else p :: Dict.erase d k := by
  unfold Dict.erase
  cases hp : (p.1 == k) <;> simp [List.filter_cons, hp]

theorem Dict.get?_map_overwrite (d : List (String × Json)) (k : String) (v : Json)
    (h : Dict.hasKey d k = true) :
    Dict.get? (d.map (fun p => if p.1 == k then (k, v) else p)) k = some v := by
  induction d with
  | nil => simp [Dict.hasKey] at h
  | cons p rest ih =>
      rw [Dict.hasKey_cons] at h
      rw [List.map_cons]
      by_cases hp : (p.1 == k) = true
      · rw [if_pos hp, Dict.get?_cons]
        simp
      · rw [if_neg hp, Dict.get?_cons, if_neg hp]
        have hp2 : (p.1 == k) = false := by simpa using hp
        rw [hp2] at h
        simp only [Bool.false_or] at h
        exact ih h

theorem Dict.get?_map_overwrite_ne (d : List (String × Json)) (k k2 : String) (v : Json)
    (h : ¬ k2 = k) :
    Dict.get? (d.map (fun p => if p.1 == k2 then (k2, v) else p)) k = Dict.get? d k := by
  induction d with
  | nil => rfl
  | cons p rest ih =>
      rw [List.map_cons]
      by_cases hp : (p.1 == k2) = true
      · have hk2 : p.1 = k2 := by simpa using hp
        have hpk : ¬ ((p.1 == k) = true) := by simp [hk2, h]
        rw [if_pos hp, Dict.get?_cons, Dict.get?_cons, if_neg hpk]
        rw [if_neg (show ¬ (((k2, v).1 == k) = true) by simp [h])]
        exact ih
      · rw [if_neg hp, Dict.get?_cons, Dict.get?_cons]
        by_cases hpk : (p.1 == k) = true
        · rw [if_pos hpk, if_pos hpk]
        · rw [if_neg hpk, if_neg hpk]; exact ih

theorem Dict.get?_assign_self (d : List (String × Json)) (k : String) (v : Json) :
    Dict.get? (Dict.assign d k v) k = some v := by
  unfold Dict.assign
  cases hk : Dict.hasKey d k with
  | true => rw [if_pos rfl]; exact Dict.get?_map_overwrite d k v hk
  | false =>
      rw [if_neg (by simp)]
      rw [Dict.get?_append_right d [(k, v)] k hk, Dict.get?_cons]
      simp

theorem Dict.get?_assign_ne (d : List (String × Json)) (k k2 : String) (v : Json)
    (h : ¬ k2 = k) : Dict.get? (Dict.assign d k2 v) k = Dict.get? d k := by
  unfold Dict.assign
  cases hk : Dict.hasKey d k2 with
  | true => rw [if_pos rfl]; exact Dict.get?_map_overwrite_ne d k k2 v h
  | false =>
      rw [if_neg (by simp)]
      cases hg : Dict.get? d k with
      | some w => exact Dict.get?_append_left d [(k2, v)] k w hg
      | none =>
          rw [Dict.get?_append_right d [(k2, v)] k
            (by rw [Dict.hasKey_eq_isSome, hg]; rfl)]
          rw [Dict.get?_cons]
          simp [h, Dict.get?]

theorem Dict.hasKey_assign_ne (d : List (String × Json)) (k k2 : String) (v : Json)
    (h : ¬ k2 = k) : Dict.hasKey (Dict.assign d k2 v) k = Dict.hasKey d k := by
  rw [Dict.hasKey_eq_isSome, Dict.hasKey_eq_isSome, Dict.get?_assign_ne d k k2 v h]

theorem Dict.get?_erase_self (d : List (String × Json)) (k : String) :
    Dict.get? (Dict.erase d k) k = none := by
  induction d with
  | nil => rfl
  | cons p rest ih =>
      rw [Dict.erase_cons]
      by_cases hp : (p.1 == k) = true
      · rw [if_pos hp]; exact ih
      · rw [if_neg hp, Dict.get?_cons, if_neg hp]; exact ih

theorem Dict.get?_erase_ne (d : List (String × Json)) (k k2 : String)
    (h : ¬ k2 = k) : Dict.get? (Dict.erase d k2) k = Dict.get? d k := by
  induction d with
  | nil => rfl
  | cons p rest ih =>
      rw [Dict.erase_cons]
      by_cases hp : (p.1 == k2) = true
      · have hk2 : p.1 = k2 := by simpa using hp
        have hpk : ¬ ((p.1 == k) = true) := by simp [hk2, h]
        rw [if_pos hp, ih, Dict.get?_cons, if_neg hpk]
      · rw [if_neg hp, Dict.get?_cons, Dict.get?_cons]
        by_cases hpk : (p.1 == k) = true
        · rw [if_pos hpk, if_pos hpk]
        · rw [if_neg hpk, if_neg hpk]; exact ih

theorem Dict.hasKey_erase_self (d : List (String × Json)) (k : String) :
    Dict.hasKey (Dict.erase d k) k = false := by
  rw [Dict.hasKey_eq_isSome, Dict.get?_erase_self]; rfl

theorem Dict.hasKey_erase_ne (d : List (String × Json)) (k k2 : String)
    (h : ¬ k2 = k) : Dict.hasKey (Dict.erase d k2) k = Dict.hasKey d k := by
  rw [Dict.hasKey_eq_isSome, Dict.hasKey_eq_isSome, Dict.get?_erase_ne d k k2 h]

theorem Dict.mem_of_get?_eq_some (d : List (String × Json)) (k : String) (v : Json)
    (h : Dict.get? d k = some v) : (k, v) ∈ d := by
  induction d with
  | nil => simp [Dict.get?] at h
  | cons p rest ih =>
      rw [Dict.get?_cons] at h
      cases hp : (p.1 == k) with
      | true =>
          rw [hp, if_pos rfl] at h
          have hk : p.1 = k := by simpa using hp
          have : p = (k, v) := by
            cases p with
            | mk a b =>
                simp only at hk
                injection h with h2
                simp only [Prod.mk.injEq]
                exact ⟨hk, h2⟩
          simp [this]
      | false =>
          rw [hp, if_neg (by simp)] at h
          exact List.mem_cons_of_mem p (ih h)

theorem Dict.mem_assign (d : List (String × Json)) (k : String) (v : Json)
    (p : String × Json) (h : p ∈ Dict.assign d k v) : p ∈ d ∨ p = (k, v) := by
  unfold Dict.assign at h
  by_cases hk : Dict.hasKey d k = true
  · rw [if_pos hk] at h
    obtain ⟨q, hq, hfq⟩ := List.mem_map.mp h
    by_cases hq1 : (q.1 == k) = true
    · rw [if_pos hq1] at hfq; exact Or.inr hfq.symm
    · rw [if_neg hq1] at hfq; exact Or.inl (hfq ▸ hq)
  · rw [if_neg hk] at h
    rcases List.mem_append.mp h with h1 | h2
    · exact Or.inl h1
    · simp at h2; exact Or.inr h2

theorem Dict.mem_update (d e : List (String × Json)) (p : String × Json)
    (h : p ∈ Dict.update d e) : p ∈ d ∨ p ∈ e := by
  induction e generalizing d with
  | nil => exact Or.inl h
  | cons q rest ih =>
      unfold Dict.update at h ih
      rcases ih (Dict.assign d q.1 q.2) h with h1 | h2
      · rcases Dict.mem_assign d q.1 q.2 p h1 with h3 | h4
        · exact Or.inl h3
        · exact Or.inr (by simp [h4])
      · exact Or.inr (List.mem_cons_of_mem q h2)

theorem Dict.mem_erase (d : List (String × Json)) (k : String)
    (p : String × Json) (h : p ∈ Dict.erase d k) : p ∈ d :=
  List.mem_of_mem_filter h

theorem Dict.hasKey_iff_exists (d : List (String × Json)) (k : String) :
    Dict.hasKey d k = true ↔ ∃ p ∈ d, p.1 = k := by
  simp [Dict.hasKey, List.any_eq_true]

/-! ## The cell execution contract -/

theorem runBody_ok {α β : Type} (c : Cell α β)
    (ifmt : InputFormat α) (ofmt : OutputFormat β) (s : String) (a : α) (b b2 : β)
    (hin : c.input_format = some ifmt) (hout : c.output_format = some ofmt)
    (hval : ifmt.model_validate_json s = Except.ok a)
    (hexec : c.execute a = Except.ok b)
    (hreval : ofmt.revalidate b = Except.ok b2) :
    runBody c s = Except.ok (ofmt.model_dump_json b2) := by
  unfold runBody
  rw [hin, hout]
  dsimp only
  rw [hval]
  simp only [bind_ok]
  rw [hexec]
  simp only [bind_ok]
  rw [hreval]
  simp only [bind_ok]
  rfl

theorem runBody_error_of_invalid {α β : Type} (c : Cell α β)
    (ifmt : InputFormat α) (ofmt : OutputFormat β) (s e : String)
    (hin : c.input_format = some ifmt) (hout : c.output_format = some ofmt)
    (hval : ifmt.model_validate_json s = Except.error e) :
    runBody c s = Except.error e := by
  unfold runBody
  rw [hin, hout]
  dsimp only
  rw [hval]
  simp only [bind_error]

/-- C1: for every cell and every input string, `run` returns normally
(the embedding is a total function: every failure of the body is caught)
and its result is a mapping with exactly the two keys `type` and `content`,
where `type` is `"success"` or `"error"` and `content` is a string. -/
theorem run_returns_wellformed_envelope {α β : Type} (c : Cell α β) (s : String) :
    isWellFormedEnvelope (run c s) = true := by
  unfold run
  cases runBody c s with
  | ok content => rfl
  | error e => rfl

/-- C2 counterexample: a cell whose `_execute` step raises.  Its input
format accepts the input, yet `run` returns the error envelope, not the
success envelope the claim promises for every validating input. -/
theorem run_success_claim_counterexample :
    addInputFormat.model_validate_json "\x7b\"x\": 1, \"y\": 2\x7d" = Except.ok (1, 2) ∧
    run failCell "\x7b\"x\": 1, \"y\": 2\x7d" =
      Json.obj [("type", Json.str "error"), ("content", Json.str "boom")] ∧
    ("error" : String) ≠ "success" :=
  ⟨rfl, rfl, by decide⟩

/-- C2 (amended): for every input string accepted by the cell's input
format, provided the execution step returns a value and that value passes
re-validation through the output format, `run` returns the success envelope
whose content is the serialization of the re-validated result. -/
theorem run_success_on_valid_input {α β : Type} (c : Cell α β)
    (ifmt : InputFormat α) (ofmt : OutputFormat β) (s : String) (a : α) (b b2 : β)
    (hin : c.input_format = some ifmt) (hout : c.output_format = some ofmt)
    (hval : ifmt.model_validate_json s = Except.ok a)
    (hexec : c.execute a = Except.ok b)
    (hreval : ofmt.revalidate b = Except.ok b2) :
    run c s = Json.obj [("type", Json.str "success"),
      ("content", Json.str (ofmt.model_dump_json b2))] := by
  unfold run
  rw [runBody_ok c ifmt ofmt s a b b2 hin hout hval hexec hreval]

/-- C2 witness: the spec's concrete scenario, `x = 1`, `y = 2`,
`result = x + y`. -/
theorem run_success_on_valid_input_witness :
    run addCell "\x7b\"x\": 1, \"y\": 2\x7d" =
      Json.obj [("type", Json.str "success"),
        ("content", Json.str "\x7b\"result\": 3\x7d")] :=
  run_success_on_valid_input addCell addInputFormat addOutputFormat
    "\x7b\"x\": 1, \"y\": 2\x7d" (1, 2) 3 3 rfl rfl rfl rfl rfl

/-- C3: for every input string rejected by the cell's input format, `run`
returns the error envelope carrying the validator's diagnostic, and the
user-defined `_execute` step is never invoked — the result does not depend
on it. -/
theorem run_error_on_invalid_input {α β : Type} (c : Cell α β)
    (ifmt : InputFormat α) (ofmt : OutputFormat β) (s e : String)
    (hin : c.input_format = some ifmt) (hout : c.output_format = some ofmt)
    (hval : ifmt.model_validate_json s = Except.error e) :
    run c s = Json.obj [("type", Json.str "error"), ("content", Json.str e)] ∧
    ∀ g : α → Except String β, run { c with execute := g } s = run c s := by
  have h1 : runBody c s = Except.error e :=
    runBody_error_of_invalid c ifmt ofmt s e hin hout hval
  have h2 : ∀ g : α → Except String β, runBody { c with execute := g } s = Except.error e :=
    fun g => runBody_error_of_invalid { c with execute := g } ifmt ofmt s e hin hout hval
  constructor
  · unfold run
    rw [h1]
  · intro g
    unfold run
    rw [h1, h2 g]

/-- C3 witness: a non-JSON input on the example cell. -/
theorem run_error_on_invalid_input_witness :
    run addCell "notjson" =
      Json.obj [("type", Json.str "error"),
        ("content", Json.str "Input should be a valid integer")] :=
  (run_error_on_invalid_input addCell addInputFormat addOutputFormat
    "notjson" "Input should be a valid integer" rfl rfl rfl).1

/-- C4: `__init_subclass__` exempts abstract subclasses; for a concrete
subclass it fails naming the first of `role`, `description`, `input_format`,
`output_format` that is absent, `None`, or (for the formats) not a Pydantic
model class, and succeeds when all four are present.  The check runs at
class-definition time, before any instance exists. -/
theorem init_subclass_check_requires_fields (cls : SubclassDecl) :
    (cls.isAbstract = true → init_subclass_check cls = Except.ok ()) ∧
    (cls.isAbstract = false →
      ((cls.role = none →
          init_subclass_check cls =
            Except.error ("Subclass '" ++ cls.name ++ "' must define a 'role' class variable.")) ∧
       (cls.role ≠ none → cls.description = none →
          init_subclass_check cls =
            Except.error ("Subclass '" ++ cls.name ++ "' must define a 'description' class variable.")) ∧
       (cls.role ≠ none → cls.description ≠ none → formatOk cls.input_format = false →
          init_subclass_check cls =
            Except.error ("Subclass '" ++ cls.name ++
              "' must define an 'input_format' class variable with a Pydantic model.")) ∧
       (cls.role ≠ none → cls.description ≠ none → formatOk cls.input_format = true →
          formatOk cls.output_format = false →
          init_subclass_check cls =
            Except.error ("Subclass '" ++ cls.name ++
              "' must define an 'output_format' class variable with a Pydantic model.")) ∧
       (cls.role ≠ none → cls.description ≠ none → formatOk cls.input_format = true →
          formatOk cls.output_format = true →
          init_subclass_check cls = Except.ok ()))) := by
  constructor
  · intro habs
    simp [init_subclass_check, habs]
  · intro habs
    refine ⟨?_, ?_, ?_, ?_, ?_⟩
    · intro hrole
      simp [init_subclass_check, habs, hrole]
    · intro hrole hdesc
      simp [init_subclass_check, habs, hdesc, Option.isNone_iff_eq_none, hrole]
    · intro hrole hdesc hif
      simp [init_subclass_check, habs, Option.isNone_iff_eq_none, hrole, hdesc, hif]
    · intro hrole hdesc hif hof
      simp [init_subclass_check, habs, Option.isNone_iff_eq_none, hrole, hdesc, hif, hof]
    · intro hrole hdesc hif hof
      simp [init_subclass_check, habs, Option.isNone_iff_eq_none, hrole, hdesc, hif, hof]

/-- C4 witness: a concrete subclass missing `role` is rejected with the
message naming `role`. -/
theorem init_subclass_check_requires_fields_witness :
    init_subclass_check missingRoleDecl =
      Except.error "Subclass 'MyCell' must define a 'role' class variable." :=
  ((init_subclass_check_requires_fields missingRoleDecl).2 rfl).1 rfl

/-! ## Dereferencer counterexamples on the tools implementation -/

/-- C5 counterexample: on the repository's own nested-reference schema
(which has a `$defs` table), the tools `replace_refs_with_defs` returns a
document that still contains a `$ref` node — the chained reference
`$defs.address.properties.country` is spliced in unresolved. -/
theorem tools_chained_ref_counterexample :
    Dict.hasKey nestedRefSchema "$defs" = true ∧
    resultHasRef (Tools.replace_refs_with_defs 30 nestedRefSchema) = true :=
  ⟨rfl, rfl⟩

/-- C6 counterexample: on the repository's own missing-definitions schema
(a reference node, no `$defs` table), the tools `replace_refs_with_defs`
returns a result instead of raising: it produces a tool-schema document in
which the reference survives. -/
theorem tools_missing_defs_counterexample :
    hasRefNode (Json.obj refNoDefsSchema) = true ∧
    Dict.hasKey refNoDefsSchema "$defs" = false ∧
    isOkResult (Tools.replace_refs_with_defs 10 refNoDefsSchema) = true ∧
    resultHasRef (Tools.replace_refs_with_defs 10 refNoDefsSchema) = true :=
  ⟨rfl, rfl, rfl, rfl⟩

/-! ## The final reshape -/

theorem reshape_ok_no_title (j : Json) (r : Json) (h : reshape j = Except.ok r) :
    ∃ g, r = Json.obj g ∧ Dict.hasKey g "title" = false := by
  cases j with
  | obj fields =>
      unfold reshape at h
      simp only [getField] at h
      cases hp : Dict.get? fields "properties" with
      | none => rw [hp] at h; simp only [exbind_error] at h; cases h
      | some pv =>
      rw [hp] at h
      simp only [exbind_ok] at h
      cases hr : Dict.get? fields "required" with
      | none => rw [hr] at h; simp only [exbind_error] at h; cases h
      | some rv =>
      rw [hr] at h
      simp only [exbind_ok] at h
      cases hy : Dict.get? fields "type" with
      | none => rw [hy] at h; simp only [exbind_error] at h; cases h
      | some yv =>
      rw [hy] at h
      simp only [exbind_ok] at h
      cases ht : Dict.get? (Dict.assign fields "parameters"
          (Json.obj [("properties", pv), ("required", rv), ("type", yv)])) "title" with
      | none => rw [ht] at h; simp only [exbind_error] at h; cases h
      | some tv =>
      rw [ht] at h
      simp only [exbind_ok] at h
      injection h with h2
      refine ⟨_, h2.symm, ?_⟩
      rw [Dict.hasKey_erase_ne _ _ _ (by decide), Dict.hasKey_erase_ne _ _ _ (by decide),
        Dict.hasKey_erase_ne _ _ _ (by decide), Dict.hasKey_erase_self]
  | null => simp [reshape] at h
  | bool b => simp [reshape] at h
  | num n => simp [reshape] at h
  | str s => simp [reshape] at h
  | arr xs => simp [reshape] at h

/-- C7 counterexample: Python mutates `schema` in place, so after the call
the argument is the returned document.  On the reference-free `Person`
schema the call succeeds yet the result differs from the original document
(`title` is renamed to `name`), so the argument is not left unchanged. -/
theorem pure_argument_claim_counterexample :
    Dict.hasKey personSchema "title" = true ∧
    isOkResult (Utils.replace_refs_with_defs 10 personSchema) = true ∧
    Utils.replace_refs_with_defs 10 personSchema ≠ Except.ok (Json.obj personSchema) := by
  refine ⟨rfl, rfl, fun hcontra => ?_⟩
  have h2 : resultObjHasKey (Utils.replace_refs_with_defs 10 personSchema) "title" =
      resultObjHasKey (Except.ok (Json.obj personSchema)) "title" := by rw [hcontra]
  have h3 : (false : Bool) = true := h2
  exact Bool.noConfusion h3

/-- C7 (amended): the function is deterministic — its result is a function
of the argument's value alone — but it mutates its argument in place: after
a successful call the argument object holds the returned tool-schema
document, which lacks the `title` key and therefore differs from any input
document that had one. -/
theorem replace_refs_with_defs_mutates_argument (fuel : Nat)
    (schema : List (String × Json))
    (hok : isOkResult (Utils.replace_refs_with_defs fuel schema) = true)
    (htitle : Dict.hasKey schema "title" = true) :
    resultObjHasKey (Utils.replace_refs_with_defs fuel schema) "title" = false ∧
    Utils.replace_refs_with_defs fuel schema ≠ Except.ok (Json.obj schema) := by
  cases hres : Utils.replace_refs_with_defs fuel schema with
  | error e => rw [hres] at hok; simp [isOkResult] at hok
  | ok r =>
      have hbind := hres
      unfold Utils.replace_refs_with_defs at hbind
      cases hphase : Utils.resolution_phase fuel schema with
      | error e => rw [hphase] at hbind; simp only [exbind_error] at hbind; cases hbind
      | ok j =>
          rw [hphase] at hbind
          simp only [exbind_ok] at hbind
          obtain ⟨g, hg, hnt⟩ := reshape_ok_no_title j r hbind
          constructor
          · rw [hg]
            simpa [resultObjHasKey] using hnt
          · intro hcontra
            injection hcontra with h2
            rw [hg] at h2
            injection h2 with h3
            rw [h3] at hnt
            rw [htitle] at hnt
            cases hnt

/-- C7 witness: the `Person` schema. -/
theorem replace_refs_with_defs_mutates_argument_witness :
    resultObjHasKey (Utils.replace_refs_with_defs 10 personSchema) "title" = false ∧
    Utils.replace_refs_with_defs 10 personSchema ≠ Except.ok (Json.obj personSchema) :=
  replace_refs_with_defs_mutates_argument 10 personSchema rfl rfl

/-- C8: on a reference-free mapping carrying `title`, `properties`,
`required` and `type`, the final reshape succeeds and yields a document
whose `name` is the input's `title`, whose `parameters` is exactly the
mapping of the input's `properties`, `required` and `type`, and whose top
level no longer carries any of the four keys. -/
theorem reshape_moves_keys (fields : List (String × Json)) (tv pv rv yv : Json)
    (href : hasRefNode (Json.obj fields) = false)
    (ht : Dict.get? fields "title" = some tv)
    (hp : Dict.get? fields "properties" = some pv)
    (hr : Dict.get? fields "required" = some rv)
    (hy : Dict.get? fields "type" = some yv) :
    isOkResult (reshape (Json.obj fields)) = true ∧
    resultObjGet? (reshape (Json.obj fields)) "name" = some tv ∧
    resultObjGet? (reshape (Json.obj fields)) "parameters" =
      some (Json.obj [("properties", pv), ("required", rv), ("type", yv)]) ∧
    resultObjHasKey (reshape (Json.obj fields)) "title" = false ∧
    resultObjHasKey (reshape (Json.obj fields)) "properties" = false ∧
    resultObjHasKey (reshape (Json.obj fields)) "required" = false ∧
    resultObjHasKey (reshape (Json.obj fields)) "type" = false := by
  have htitle1 : Dict.get? (Dict.assign fields "parameters"
      (Json.obj [("properties", pv), ("required", rv), ("type", yv)])) "title" = some tv := by
    rw [Dict.get?_assign_ne _ _ _ _ (by decide)]
    exact ht
  have hresh : reshape (Json.obj fields) = Except.ok (Json.obj
      (Dict.erase (Dict.erase (Dict.erase (Dict.erase
        (Dict.assign (Dict.assign fields "parameters"
          (Json.obj [("properties", pv), ("required", rv), ("type", yv)])) "name" tv)
        "title") "properties") "required") "type")) := by
    unfold reshape
    simp only [getField, hp, hr, hy, htitle1, exbind_ok]
  rw [hresh]
  refine ⟨rfl, ?_, ?_, ?_, ?_, ?_, ?_⟩
  · show Dict.get? _ "name" = some tv
    rw [Dict.get?_erase_ne _ _ _ (by decide), Dict.get?_erase_ne _ _ _ (by decide),
      Dict.get?_erase_ne _ _ _ (by decide), Dict.get?_erase_ne _ _ _ (by decide),
      Dict.get?_assign_self]
  · show Dict.get? _ "parameters" = some _
    rw [Dict.get?_erase_ne _ _ _ (by decide), Dict.get?_erase_ne _ _ _ (by decide),
      Dict.get?_erase_ne _ _ _ (by decide), Dict.get?_erase_ne _ _ _ (by decide),
      Dict.get?_assign_ne _ _ _ _ (by decide), Dict.get?_assign_self]
  · show Dict.hasKey _ "title" = false
    rw [Dict.hasKey_erase_ne _ _ _ (by decide), Dict.hasKey_erase_ne _ _ _ (by decide),
      Dict.hasKey_erase_ne _ _ _ (by decide), Dict.hasKey_erase_self]
  · show Dict.hasKey _ "properties" = false
    rw [Dict.hasKey_erase_ne _ _ _ (by decide), Dict.hasKey_erase_ne _ _ _ (by decide),
      Dict.hasKey_erase_self]
  · show Dict.hasKey _ "required" = false
    rw [Dict.hasKey_erase_ne _ _ _ (by decide), Dict.hasKey_erase_self]
  · show Dict.hasKey _ "type" = false
    rw [Dict.hasKey_erase_self]

/-- C8 witness: the `Person` schema. -/
theorem reshape_moves_keys_witness :
    hasRefNode (Json.obj personSchema) = false ∧
    resultObjGet? (reshape (Json.obj personSchema)) "name" = some (Json.str "Person") ∧
    resultObjHasKey (reshape (Json.obj personSchema)) "title" = false :=
  ⟨rfl,
   (reshape_moves_keys personSchema _ _ _ _ rfl rfl rfl rfl rfl).2.1,
   (reshape_moves_keys personSchema _ _ _ _ rfl rfl rfl rfl rfl).2.2.2.1⟩

theorem reshape_keyerror_of_missing (fields : List (String × Json))
    (hmiss : Dict.hasKey fields "title" = false ∨ Dict.hasKey fields "properties" = false ∨
      Dict.hasKey fields "required" = false ∨ Dict.hasKey fields "type" = false) :
    isKeyErrorResult (reshape (Json.obj fields)) = true := by
  by_cases hp : Dict.hasKey fields "properties" = true
  case neg =>
    have hp2 : Dict.get? fields "properties" = none :=
      Dict.get?_eq_none_of_hasKey _ _ (by simpa using hp)
    unfold reshape
    simp only [getField, hp2, exbind_error]
    rfl
  case pos =>
  obtain ⟨pv, hpv⟩ := Dict.get?_isSome_of_hasKey _ _ hp
  by_cases hr : Dict.hasKey fields "required" = true
  case neg =>
    have hr2 : Dict.get? fields "required" = none :=
      Dict.get?_eq_none_of_hasKey _ _ (by simpa using hr)
    unfold reshape
    simp only [getField, hpv, hr2, exbind_ok, exbind_error]
    rfl
  case pos =>
  obtain ⟨rv, hrv⟩ := Dict.get?_isSome_of_hasKey _ _ hr
  by_cases hy : Dict.hasKey fields "type" = true
  case neg =>
    have hy2 : Dict.get? fields "type" = none :=
      Dict.get?_eq_none_of_hasKey _ _ (by simpa using hy)
    unfold reshape
    simp only [getField, hpv, hrv, hy2, exbind_ok, exbind_error]
    rfl
  case pos =>
  obtain ⟨yv, hyv⟩ := Dict.get?_isSome_of_hasKey _ _ hy
  have htf : Dict.hasKey fields "title" = false := by
    rcases hmiss with h | h | h | h
    · exact h
    · rw [h] at hp; cases hp
    · rw [h] at hr; cases hr
    · rw [h] at hy; cases hy
  have ht2 : Dict.get? (Dict.assign fields "parameters"
      (Json.obj [("properties", pv), ("required", rv), ("type", yv)])) "title" = none := by
    rw [Dict.get?_assign_ne _ _ _ _ (by decide)]
    exact Dict.get?_eq_none_of_hasKey _ _ htf
  unfold reshape
  simp only [getField, hpv, hrv, hyv, ht2, exbind_ok, exbind_error]
  rfl

/-- C10: when the document produced by the resolution phase lacks any of
`title`, `properties`, `required` or `type` at its top level — for example
the schema of a model with no required field — `replace_refs_with_defs`
raises a `KeyError` instead of returning a tool-schema document. -/
theorem replace_refs_with_defs_keyerror_on_missing_key (fuel : Nat)
    (schema fields2 : List (String × Json))
    (hres : Utils.resolution_phase fuel schema = Except.ok (Json.obj fields2))
    (hmiss : Dict.hasKey fields2 "title" = false ∨ Dict.hasKey fields2 "properties" = false ∨
      Dict.hasKey fields2 "required" = false ∨ Dict.hasKey fields2 "type" = false) :
    isKeyErrorResult (Utils.replace_refs_with_defs fuel schema) = true := by
  unfold Utils.replace_refs_with_defs
  rw [hres]
  simp only [exbind_ok]
  exact reshape_keyerror_of_missing fields2 hmiss

/-- C10 witness: the schema with no `required` key. -/
theorem replace_refs_with_defs_keyerror_on_missing_key_witness :
    isKeyErrorResult (Utils.replace_refs_with_defs 10 noRequiredSchema) = true :=
  replace_refs_with_defs_keyerror_on_missing_key 10 noRequiredSchema noRequiredSchema rfl
    (Or.inr (Or.inr (Or.inl rfl)))

/-! ## Characterizations of the reference predicates -/

theorem hasRefNodeFields_iff (fs : List (String × Json)) :
    hasRefNodeFields fs = true ↔ ∃ p ∈ fs, hasRefNode p.2 = true := by
  induction fs with
  | nil => simp [hasRefNodeFields]
  | cons p rest ih => simp [hasRefNodeFields, Bool.or_eq_true, ih]

theorem hasRefNodeElems_iff (xs : List Json) :
    hasRefNodeElems xs = true ↔ ∃ x ∈ xs, hasRefNode x = true := by
  induction xs with
  | nil => simp [hasRefNodeElems]
  | cons x rest ih => simp [hasRefNodeElems, Bool.or_eq_true, ih]

theorem hasRefNode_obj_false_iff (l : List (String × Json)) :
    hasRefNode (Json.obj l) = false ↔
      Dict.hasKey l "$ref" = false ∧ ∀ p ∈ l, hasRefNode p.2 = false := by
  constructor
  · intro h
    have h2 : ¬ (hasRefNode (Json.obj l) = true) := by rw [h]; simp
    simp only [hasRefNode, Bool.or_eq_true, not_or] at h2
    constructor
    · cases hk : Dict.hasKey l "$ref" with
      | false => rfl
      | true => exact absurd hk h2.1
    · intro p hp
      cases hr : hasRefNode p.2 with
      | false => rfl
      | true => exact absurd ((hasRefNodeFields_iff l).mpr ⟨p, hp, hr⟩) h2.2
  · intro ⟨h1, h2⟩
    cases h : hasRefNode (Json.obj l) with
    | false => rfl
    | true =>
        simp only [hasRefNode, Bool.or_eq_true] at h
        rcases h with h | h
        · rw [h1] at h; cases h
        · obtain ⟨p, hp, hr⟩ := (hasRefNodeFields_iff l).mp h
          rw [h2 p hp] at hr; cases hr

theorem hasRefNode_arr_false_iff (xs : List Json) :
    hasRefNode (Json.arr xs) = false ↔ ∀ x ∈ xs, hasRefNode x = false := by
  constructor
  · intro h x hx
    cases hr : hasRefNode x with
    | false => rfl
    | true =>
        have : hasRefNode (Json.arr xs) = true := by
          simpa [hasRefNode] using (hasRefNodeElems_iff xs).mpr ⟨x, hx, hr⟩
        rw [h] at this; cases this
  · intro h
    cases hr : hasRefNode (Json.arr xs) with
    | false => rfl
    | true =>
        simp only [hasRefNode] at hr
        obtain ⟨x, hx, hr2⟩ := (hasRefNodeElems_iff xs).mp hr
        rw [h x hx] at hr2; cases hr2

theorem refsIsolatedFields_iff (fs : List (String × Json)) :
    refsIsolatedFields fs = true ↔ ∀ p ∈ fs, refsIsolated p.2 = true := by
  induction fs with
  | nil => simp [refsIsolatedFields]
  | cons p rest ih => simp [refsIsolatedFields, Bool.and_eq_true, ih]

theorem refsIsolatedElems_iff (xs : List Json) :
    refsIsolatedElems xs = true ↔ ∀ x ∈ xs, refsIsolated x = true := by
  induction xs with
  | nil => simp [refsIsolatedElems]
  | cons x rest ih => simp [refsIsolatedElems, Bool.and_eq_true, ih]

theorem refsIsolated_obj_parts (l : List (String × Json))
    (h : refsIsolated (Json.obj l) = true) :
    (Dict.hasKey l "$ref" = true → l.length = 1) ∧ refsIsolatedFields l = true := by
  simp only [refsIsolated, Bool.and_eq_true, Bool.or_eq_true] at h
  refine ⟨fun hk => ?_, h.2⟩
  rcases h.1 with h1 | h1
  · rw [hk] at h1; cases h1
  · simpa using h1

/-! ## The `$ref` marker survives serialization -/

theorem isInfix_append_left {a b : List Char} (c : List Char) (h : a <:+: b) :
    a <:+: b ++ c := by
  obtain ⟨s, t, hst⟩ := h
  exact ⟨s, t ++ c, by rw [← hst]; simp⟩

theorem isInfix_append_right {a b : List Char} (c : List Char) (h : a <:+: b) :
    a <:+: c ++ b := by
  obtain ⟨s, t, hst⟩ := h
  exact ⟨c ++ s, t, by rw [← hst]; simp⟩

theorem infix_str_left {a : List Char} (b c : String) (h : a <:+: b.data) :
    a <:+: (b ++ c).data := by
  rw [String.data_append]
  exact isInfix_append_left _ h

theorem infix_str_right {a : List Char} (b c : String) (h : a <:+: c.data) :
    a <:+: (b ++ c).data := by
  rw [String.data_append]
  exact isInfix_append_right _ h

theorem dumps_mem_elems (x : Json) (xs : List Json) (hx : x ∈ xs) :
    (dumps x).data <:+: (dumpsElems xs).data := by
  induction xs with
  | nil => cases hx
  | cons y rest ih =>
      rcases List.mem_cons.mp hx with h1 | h2
      · subst h1
        cases rest with
        | nil => exact List.infix_refl _
        | cons z rest2 =>
            show (dumps x).data <:+: (dumps x ++ ", " ++ dumpsElems (z :: rest2)).data
            exact infix_str_left _ _ (infix_str_left _ _ (List.infix_refl _))
      · cases rest with
        | nil => cases h2
        | cons z rest2 =>
            show (dumps x).data <:+: (dumps y ++ ", " ++ dumpsElems (z :: rest2)).data
            exact infix_str_right _ _ (ih h2)

theorem dumps_mem_fields (p : String × Json) (fs : List (String × Json)) (hp : p ∈ fs) :
    ("\"" ++ jsonEscape p.1 ++ "\": " ++ dumps p.2).data <:+: (dumpsFields fs).data := by
  induction fs with
  | nil => cases hp
  | cons q rest ih =>
      obtain ⟨qk, qv⟩ := q
      rcases List.mem_cons.mp hp with h1 | h2
      · subst h1
        cases rest with
        | nil => exact List.infix_refl _
        | cons q2 rest2 =>
            show _ <:+:
              ("\"" ++ jsonEscape qk ++ "\": " ++ dumps qv ++ ", " ++
                dumpsFields (q2 :: rest2)).data
            exact infix_str_left _ _ (infix_str_left _ _ (List.infix_refl _))
      · cases rest with
        | nil => cases h2
        | cons q2 rest2 =>
            show _ <:+:
              ("\"" ++ jsonEscape qk ++ "\": " ++ dumps qv ++ ", " ++
                dumpsFields (q2 :: rest2)).data
            exact infix_str_right _ _ (ih h2)

theorem refMarker_infix_refField (v : Json) :
    "$ref".data <:+: ("\"" ++ jsonEscape "$ref" ++ "\": " ++ dumps v).data := by
  have he : jsonEscape "$ref" = "$ref" := rfl
  rw [he]
  refine ⟨"\"".data, ("\": " ++ dumps v).data, ?_⟩
  rw [String.data_append, String.data_append, String.data_append, String.data_append]
  simp

theorem hasRefNode_marker (n : Nat) :
    ∀ j : Json, sizeOf j ≤ n → hasRefNode j = true →
      "$ref".data <:+: (dumps j).data := by
  induction n with
  | zero =>
      intro j hj
      cases j <;> simp_all
  | succ n ih =>
      intro j hj h
      cases j with
      | obj fields =>
          have hwrap : ∀ a : List Char, a <:+: (dumpsFields fields).data →
              a <:+: (dumps (Json.obj fields)).data := by
            intro a ha
            show a <:+: ("\x7b" ++ dumpsFields fields ++ "\x7d").data
            rw [String.data_append, String.data_append]
            exact isInfix_append_left _ (isInfix_append_right _ ha)
          simp only [hasRefNode, Bool.or_eq_true] at h
          rcases h with h | h
          · obtain ⟨v, hv⟩ := Dict.get?_isSome_of_hasKey fields "$ref" h
            have hmem := Dict.mem_of_get?_eq_some fields "$ref" v hv
            have hfield := dumps_mem_fields ("$ref", v) fields hmem
            exact hwrap _ ((refMarker_infix_refField v).trans hfield)
          · obtain ⟨p, hp, hr⟩ := (hasRefNodeFields_iff fields).mp h
            have hsz : sizeOf p.2 ≤ n := by
              have h1 := List.sizeOf_lt_of_mem hp
              have h2 : sizeOf (Json.obj fields) = 1 + sizeOf fields := by simp
              have h3 : sizeOf p.2 < sizeOf p := by
                obtain ⟨pk, pv⟩ := p
                simp
              omega
            have hinner := ih p.2 hsz hr
            have hfield := dumps_mem_fields p fields hp
            refine hwrap _ (List.IsInfix.trans ?_ hfield)
            show "$ref".data <:+: ("\"" ++ jsonEscape p.1 ++ "\": " ++ dumps p.2).data
            rw [String.data_append]
            exact isInfix_append_right _ hinner
      | arr xs =>
          simp only [hasRefNode] at h
          obtain ⟨x, hx, hr⟩ := (hasRefNodeElems_iff xs).mp h
          have hsz : sizeOf x ≤ n := by
            have h1 := List.sizeOf_lt_of_mem hx
            have h2 : sizeOf (Json.arr xs) = 1 + sizeOf xs := by simp
            omega
          have hinner := ih x hsz hr
          have helem := dumps_mem_elems x xs hx
          show "$ref".data <:+: ("[" ++ dumpsElems xs ++ "]").data
          rw [String.data_append, String.data_append]
          exact isInfix_append_left _ (isInfix_append_right _ (hinner.trans helem))
      | null => simp [hasRefNode] at h
      | bool b => simp [hasRefNode] at h
      | num m => simp [hasRefNode] at h
      | str s => simp [hasRefNode] at h

theorem containsRefText_of_hasRefNode (j : Json) (h : hasRefNode j = true) :
    containsRefText j = true := by
  unfold containsRefText
  rw [decide_eq_true_eq]
  exact hasRefNode_marker (sizeOf j) j (Nat.le_refl _) h

theorem hasRefNode_false_of_not_containsRefText (j : Json)
    (h : containsRefText j = false) : hasRefNode j = false := by
  cases hr : hasRefNode j with
  | false => rfl
  | true => rw [containsRefText_of_hasRefNode j hr] at h; cases h

/-- C6 (amended, holds for the utils implementation): a schema with a
reference node somewhere and no `$defs` key raises the `KeyError` whose
message reports references with nothing to resolve them against.  (The
tools implementation returns a document instead.) -/
theorem utils_raises_on_refs_without_defs (fuel : Nat) (schema : List (String × Json))
    (href : hasRefNode (Json.obj schema) = true)
    (hdefs : Dict.hasKey schema "$defs" = false) :
    Utils.replace_refs_with_defs fuel schema =
      Except.error
        (PyErr.keyError "Schema does not have any defs however it contains some ref") := by
  have hct := containsRefText_of_hasRefNode _ href
  unfold Utils.replace_refs_with_defs Utils.resolution_phase
  rw [hdefs, hct]
  simp [exbind_error]

/-- C6 witness: the repository's own missing-definitions schema. -/
theorem utils_raises_on_refs_without_defs_witness :
    Utils.replace_refs_with_defs 10 refNoDefsSchema =
      Except.error
        (PyErr.keyError "Schema does not have any defs however it contains some ref") :=
  utils_raises_on_refs_without_defs 10 refNoDefsSchema rfl rfl

/-! ## Reference isolation is preserved by resolution -/

theorem refsIsolated_getItem (j v : Json) (k : String) (hiso : refsIsolated j = true)
    (h : getItem j k = Except.ok v) : refsIsolated v = true := by
  cases j with
  | obj fields =>
      simp only [getItem] at h
      cases hg : Dict.get? fields k with
      | none => rw [hg] at h; cases h
      | some w =>
          rw [hg] at h
          injection h with h2
          subst h2
          have hmem := Dict.mem_of_get?_eq_some fields k w hg
          exact (refsIsolatedFields_iff fields).mp
            (refsIsolated_obj_parts fields hiso).2 (k, w) hmem
  | null => simp [getItem] at h
  | bool b => simp [getItem] at h
  | num m => simp [getItem] at h
  | str s => simp [getItem] at h
  | arr xs => simp [getItem] at h

theorem refsIsolated_foldlM (path : List String) : ∀ (d v : Json),
    refsIsolated d = true → path.foldlM getItem d = Except.ok v →
    refsIsolated v = true := by
  induction path with
  | nil =>
      intro d v h hf
      injection hf with h2
      subst h2
      exact h
  | cons k rest ih =>
      intro d v h hf
      simp only [List.foldlM] at hf
      cases hg : getItem d k with
      | error e => rw [hg] at hf; simp only [bind_error] at hf; cases hf
      | ok d2 =>
          rw [hg] at hf
          simp only [bind_ok] at hf
          exact ih d2 v (refsIsolated_getItem d d2 k h hg) hf

theorem refsIsolated_resolve_ref (ref : String) (defs v : Json)
    (hiso : refsIsolated defs = true) (h : resolve_ref ref defs = Except.ok v) :
    refsIsolated v = true := by
  unfold resolve_ref at h
  exact refsIsolated_foldlM _ defs v hiso h

theorem erase_singleton_ref (l : List (String × Json)) (hlen : l.length = 1)
    (hk : Dict.hasKey l "$ref" = true) : Dict.erase l "$ref" = [] := by
  cases l with
  | nil => cases hk
  | cons p rest =>
      cases rest with
      | cons q r2 => simp at hlen
      | nil =>
          have hp : (p.1 == "$ref") = true := by simpa [Dict.hasKey] using hk
          rw [Dict.erase_cons, if_pos hp]
          rfl

theorem update_refFree (d e : List (String × Json))
    (hd : hasRefNode (Json.obj d) = false) (he : hasRefNode (Json.obj e) = false) :
    hasRefNode (Json.obj (Dict.update d e)) = false := by
  rw [hasRefNode_obj_false_iff] at hd he ⊢
  constructor
  · cases hk : Dict.hasKey (Dict.update d e) "$ref" with
    | false => rfl
    | true =>
        obtain ⟨p, hp, hp1⟩ := (Dict.hasKey_iff_exists _ _).mp hk
        rcases Dict.mem_update d e p hp with h1 | h1
        · have h2 := (Dict.hasKey_iff_exists d "$ref").mpr ⟨p, h1, hp1⟩
          rw [hd.1] at h2; cases h2
        · have h2 := (Dict.hasKey_iff_exists e "$ref").mpr ⟨p, h1, hp1⟩
          rw [he.1] at h2; cases h2
  · intro p hp
    rcases Dict.mem_update d e p hp with h1 | h1
    · exact hd.2 p h1
    · exact he.2 p h1

theorem hasKey_iff_mem_keys (l : List (String × Json)) (k : String) :
    Dict.hasKey l k = true ↔ k ∈ l.map Prod.fst := by
  rw [Dict.hasKey_iff_exists]
  simp [List.mem_map]

theorem hasKey_eq_of_keys_eq (d e : List (String × Json)) (k : String)
    (h : d.map Prod.fst = e.map Prod.fst) : Dict.hasKey d k = Dict.hasKey e k := by
  cases hd : Dict.hasKey d k with
  | true =>
      have h1 := (hasKey_iff_mem_keys d k).mp hd
      rw [h] at h1
      exact ((hasKey_iff_mem_keys e k).mpr h1).symm
  | false =>
      cases he : Dict.hasKey e k with
      | false => rfl
      | true =>
          have h1 := (hasKey_iff_mem_keys e k).mp he
          rw [← h] at h1
          rw [(hasKey_iff_mem_keys d k).mpr h1] at hd
          cases hd

/-! ## Keys produced by pair splices are never the reference marker -/

theorem digitChar_ne_dollar (d : Nat) : ¬ Nat.digitChar d = '$' := by
  rcases Nat.lt_or_ge d 16 with h | h
  · interval_cases d <;> decide
  · intro hc
    unfold Nat.digitChar at hc
    rw [if_neg (show ¬ d = 0 by omega), if_neg (show ¬ d = 1 by omega),
      if_neg (show ¬ d = 2 by omega), if_neg (show ¬ d = 3 by omega),
      if_neg (show ¬ d = 4 by omega), if_neg (show ¬ d = 5 by omega),
      if_neg (show ¬ d = 6 by omega), if_neg (show ¬ d = 7 by omega),
      if_neg (show ¬ d = 8 by omega), if_neg (show ¬ d = 9 by omega),
      if_neg (show ¬ d = 10 by omega), if_neg (show ¬ d = 11 by omega),
      if_neg (show ¬ d = 12 by omega), if_neg (show ¬ d = 13 by omega),
      if_neg (show ¬ d = 14 by omega), if_neg (show ¬ d = 15 by omega)] at hc
    exact absurd hc (by decide)

theorem toDigitsCore_chars (b fuel : Nat) :
    ∀ (n : Nat) (ds : List Char) (c : Char), c ∈ Nat.toDigitsCore b fuel n ds →
      c ∈ ds ∨ ∃ d, c = Nat.digitChar d := by
  induction fuel with
  | zero =>
      intro n ds c hc
      simp only [Nat.toDigitsCore] at hc
      exact Or.inl hc
  | succ f ih =>
      intro n ds c hc
      simp only [Nat.toDigitsCore] at hc
      by_cases h : n / b = 0
      · rw [if_pos h] at hc
        rcases List.mem_cons.mp hc with h1 | h1
        · exact Or.inr ⟨n % b, h1⟩
        · exact Or.inl h1
      · rw [if_neg h] at hc
        rcases ih (n / b) (Nat.digitChar (n % b) :: ds) c hc with h1 | h1
        · rcases List.mem_cons.mp h1 with h2 | h2
          · exact Or.inr ⟨n % b, h2⟩
          · exact Or.inl h2
        · exact Or.inr h1

theorem natRepr_ne_ref (m : Nat) : ¬ Nat.repr m = "$ref" := by
  intro h
  have hd : Nat.toDigits 10 m = "$ref".data := congrArg String.data h
  have hm : '$' ∈ Nat.toDigits 10 m := by rw [hd]; decide
  rcases toDigitsCore_chars 10 (m + 1) m [] '$' hm with h1 | ⟨d, h2⟩
  · cases h1
  · exact digitChar_ne_dollar d h2.symm

theorem toString_int_ne_ref (n : Int) : ¬ toString n = "$ref" := by
  cases n with
  | ofNat m => exact natRepr_ne_ref m
  | negSucc m =>
      intro h
      have h2 : ("-" ++ Nat.repr (m + 1)).data = "$ref".data := congrArg String.data h
      rw [String.data_append] at h2
      rw [show ("-" : String).data = ['-'] from rfl] at h2
      rw [show ("$ref" : String).data = ['$', 'r', 'e', 'f'] from rfl] at h2
      injection h2 with h3 _
      exact absurd h3 (by decide)

theorem singleton_ne_ref (c : Char) : ¬ String.singleton c = "$ref" := by
  intro h
  have h2 : [c] = ['$', 'r', 'e', 'f'] := congrArg String.data h
  injection h2 with _ h3
  cases h3

/-! ## `noRefPairs` characterizations and closure under resolution -/

theorem noRefPairsFields_iff (fs : List (String × Json)) :
    noRefPairsFields fs = true ↔ ∀ p ∈ fs, noRefPairs p.2 = true := by
  induction fs with
  | nil => simp [noRefPairsFields]
  | cons p rest ih => simp [noRefPairsFields, Bool.and_eq_true, ih]

theorem noRefPairsElems_iff (xs : List Json) :
    noRefPairsElems xs = true ↔ ∀ x ∈ xs, isRefPair x = false ∧ noRefPairs x = true := by
  induction xs with
  | nil => simp [noRefPairsElems]
  | cons x rest ih =>
      simp [noRefPairsElems, Bool.and_eq_true, ih, Bool.not_eq_true']

theorem noRefPairs_obj_eq (l : List (String × Json)) :
    noRefPairs (Json.obj l) = noRefPairsFields l := rfl

theorem noRefPairs_arr_eq (xs : List Json) :
    noRefPairs (Json.arr xs) = noRefPairsElems xs := rfl

theorem noRefPairs_getItem (j v : Json) (k : String) (hnp : noRefPairs j = true)
    (h : getItem j k = Except.ok v) : noRefPairs v = true := by
  cases j with
  | obj fields =>
      simp only [getItem] at h
      cases hg : Dict.get? fields k with
      | none => rw [hg] at h; cases h
      | some w =>
          rw [hg] at h
          injection h with h2
          subst h2
          exact (noRefPairsFields_iff fields).mp (by simpa [noRefPairs] using hnp) (k, w)
            (Dict.mem_of_get?_eq_some fields k w hg)
  | null => simp [getItem] at h
  | bool b => simp [getItem] at h
  | num m => simp [getItem] at h
  | str s => simp [getItem] at h
  | arr xs => simp [getItem] at h

theorem noRefPairs_foldlM (path : List String) : ∀ (d v : Json),
    noRefPairs d = true → path.foldlM getItem d = Except.ok v →
    noRefPairs v = true := by
  induction path with
  | nil =>
      intro d v h hf
      injection hf with h2
      subst h2
      exact h
  | cons k rest ih =>
      intro d v h hf
      simp only [List.foldlM] at hf
      cases hg : getItem d k with
      | error e => rw [hg] at hf; simp only [bind_error] at hf; cases hf
      | ok d2 =>
          rw [hg] at hf
          simp only [bind_ok] at hf
          exact ih d2 v (noRefPairs_getItem d d2 k h hg) hf

theorem noRefPairs_resolve_ref (ref : String) (defs v : Json)
    (hnp : noRefPairs defs = true) (h : resolve_ref ref defs = Except.ok v) :
    noRefPairs v = true := by
  unfold resolve_ref at h
  exact noRefPairs_foldlM _ defs v hnp h

/-! ## Faithful `dict.update` preserves reference-freedom -/

theorem pairOfElement_props (el : Json) (k : String) (v : Json)
    (hel : hasRefNode el = false) (hnp : noRefPairs el = true) (hrp : isRefPair el = false)
    (h : pairOfElement el = Except.ok (k, v)) :
    ¬ k = "$ref" ∧ hasRefNode v = false ∧ noRefPairs v = true := by
  cases el with
  | arr xs =>
      cases xs with
      | nil => simp [pairOfElement] at h
      | cons kk rest =>
          cases rest with
          | nil => simp [pairOfElement] at h
          | cons vv rest2 =>
              cases rest2 with
              | cons z zs => simp [pairOfElement] at h
              | nil =>
                  have hvv1 : hasRefNode vv = false :=
                    (hasRefNode_arr_false_iff [kk, vv]).mp hel vv (by simp)
                  have hvv2 : noRefPairs vv = true := by
                    have hl := (noRefPairsElems_iff [kk, vv]).mp
                      (by simpa [noRefPairs] using hnp)
                    exact (hl vv (by simp)).2
                  cases kk with
                  | str s =>
                      simp only [pairOfElement] at h
                      injection h with h2
                      injection h2 with hk hv
                      subst hk
                      subst hv
                      refine ⟨?_, hvv1, hvv2⟩
                      have hs : (s == "$ref") = false := by simpa [isRefPair] using hrp
                      simpa using hs
                  | num m =>
                      simp only [pairOfElement] at h
                      injection h with h2
                      injection h2 with hk hv
                      subst hk
                      subst hv
                      exact ⟨toString_int_ne_ref m, hvv1, hvv2⟩
                  | bool b =>
                      cases b with
                      | true =>
                          simp only [pairOfElement] at h
                          injection h with h2
                          injection h2 with hk hv
                          subst hk
                          subst hv
                          exact ⟨by decide, hvv1, hvv2⟩
                      | false =>
                          simp only [pairOfElement] at h
                          injection h with h2
                          injection h2 with hk hv
                          subst hk
                          subst hv
                          exact ⟨by decide, hvv1, hvv2⟩
                  | null =>
                      simp only [pairOfElement] at h
                      injection h with h2
                      injection h2 with hk hv
                      subst hk
                      subst hv
                      exact ⟨by decide, hvv1, hvv2⟩
                  | arr ys => simp [pairOfElement] at h
                  | obj l => simp [pairOfElement] at h
  | str s =>
      simp only [pairOfElement] at h
      cases hs : s.data with
      | nil => rw [hs] at h; cases h
      | cons c1 rest =>
          cases rest with
          | nil => rw [hs] at h; cases h
          | cons c2 rest2 =>
              cases rest2 with
              | cons z zs => rw [hs] at h; cases h
              | nil =>
                  rw [hs] at h
                  injection h with h2
                  injection h2 with hk hv
                  subst hk
                  subst hv
                  exact ⟨singleton_ne_ref c1, rfl, rfl⟩
  | obj fields =>
      cases fields with
      | nil => simp [pairOfElement] at h
      | cons p1 rest =>
          cases rest with
          | nil =>
              obtain ⟨k1, a⟩ := p1
              simp [pairOfElement] at h
          | cons p2 rest2 =>
              cases rest2 with
              | cons z zs =>
                  obtain ⟨k1, a⟩ := p1
                  obtain ⟨k2, b⟩ := p2
                  simp [pairOfElement] at h
              | nil =>
                  obtain ⟨k1, a⟩ := p1
                  obtain ⟨k2, b⟩ := p2
                  simp only [pairOfElement] at h
                  injection h with h2
                  injection h2 with hk hv
                  subst hk
                  subst hv
                  refine ⟨?_, rfl, rfl⟩
                  intro hc
                  have hfalse := (hasRefNode_obj_false_iff [(k1, a), (k2, b)]).mp hel
                  have hkk := hfalse.1
                  subst hc
                  simp [Dict.hasKey] at hkk
  | null => simp [pairOfElement] at h
  | bool b => simp [pairOfElement] at h
  | num m => simp [pairOfElement] at h

theorem updatePairs_props (elems : List Json) : ∀ (d out : List (String × Json)),
    hasRefNode (Json.obj d) = false → noRefPairsFields d = true →
    (∀ el ∈ elems, hasRefNode el = false ∧ noRefPairs el = true ∧ isRefPair el = false) →
    elems.foldlM
      (fun acc el => (pairOfElement el).bind fun p => Except.ok (Dict.assign acc p.1 p.2)) d
      = Except.ok out →
    hasRefNode (Json.obj out) = false ∧ noRefPairsFields out = true := by
  induction elems with
  | nil =>
      intro d out hd hdp _ h
      injection h with h2
      subst h2
      exact ⟨hd, hdp⟩
  | cons el rest ih =>
      intro d out hd hdp hels h
      simp only [List.foldlM] at h
      cases hpair : pairOfElement el with
      | error e =>
          rw [hpair] at h
          simp only [exbind_error] at h
          simp only [bind_error] at h
          cases h
      | ok p =>
          rw [hpair] at h
          simp only [exbind_ok] at h
          simp only [bind_ok] at h
          obtain ⟨hel1, hel2, hel3⟩ := hels el (List.mem_cons_self el rest)
          obtain ⟨hk, hv1, hv2⟩ :=
            pairOfElement_props el p.1 p.2 hel1 hel2 hel3 (by rw [hpair])
          have hd2 : hasRefNode (Json.obj (Dict.assign d p.1 p.2)) = false := by
            rw [hasRefNode_obj_false_iff] at hd ⊢
            constructor
            · rw [Dict.hasKey_assign_ne d "$ref" p.1 p.2 hk]
              exact hd.1
            · intro q hq
              rcases Dict.mem_assign d p.1 p.2 q hq with h1 | h1
              · exact hd.2 q h1
              · rw [h1]
                exact hv1
          have hdp2 : noRefPairsFields (Dict.assign d p.1 p.2) = true := by
            rw [noRefPairsFields_iff] at hdp ⊢
            intro q hq
            rcases Dict.mem_assign d p.1 p.2 q hq with h1 | h1
            · exact hdp q h1
            · rw [h1]
              exact hv2
          exact ih (Dict.assign d p.1 p.2) out hd2 hdp2
            (fun e he => hels e (List.mem_cons_of_mem el he)) h

theorem dictUpdateAny_ok_props (d : List (String × Json)) (x : Json)
    (out : List (String × Json))
    (hd : hasRefNode (Json.obj d) = false) (hdp : noRefPairsFields d = true)
    (hx : hasRefNode x = false) (hxp : noRefPairs x = true)
    (h : dictUpdateAny d x = Except.ok out) :
    hasRefNode (Json.obj out) = false ∧ noRefPairsFields out = true := by
  cases x with
  | obj e =>
      simp only [dictUpdateAny] at h
      injection h with h2
      subst h2
      constructor
      · exact update_refFree d e hd hx
      · rw [noRefPairsFields_iff]
        intro p hp
        rcases Dict.mem_update d e p hp with h1 | h1
        · exact (noRefPairsFields_iff d).mp hdp p h1
        · have hef : noRefPairsFields e = true := by simpa [noRefPairs] using hxp
          exact (noRefPairsFields_iff e).mp hef p h1
  | arr elems =>
      simp only [dictUpdateAny] at h
      apply updatePairs_props elems d out hd hdp _ h
      intro el hel
      have h1 : hasRefNode el = false := (hasRefNode_arr_false_iff elems).mp hx el hel
      have h2 := (noRefPairsElems_iff elems).mp (by simpa [noRefPairs] using hxp) el hel
      exact ⟨h1, h2.2, h2.1⟩
  | str s =>
      simp only [dictUpdateAny] at h
      cases hs : s.data with
      | nil =>
          rw [hs] at h
          injection h with h2
          subst h2
          exact ⟨hd, hdp⟩
      | cons c restc =>
          rw [hs] at h
          cases h
  | null => simp [dictUpdateAny] at h
  | bool b => simp [dictUpdateAny] at h
  | num m => simp [dictUpdateAny] at h

/-! ## Shape of the walk's results -/

theorem walk_ok_obj (f : Nat) (fields : List (String × Json)) (defs out : Json)
    (h : Utils.replace_refs f (Json.obj fields) defs = Except.ok out) :
    ∃ g, out = Json.obj g := by
  cases f with
  | zero => simp [Utils.replace_refs] at h
  | succ n =>
      simp only [Utils.replace_refs] at h
      by_cases hkey : Dict.hasKey fields "$ref" = true
      · rw [if_pos hkey] at h
        cases hg : Dict.get? fields "$ref" with
        | none => rw [hg] at h; cases h
        | some refv =>
            rw [hg] at h
            cases refv with
            | str ref =>
                dsimp only at h
                cases hres : resolve_ref ref defs with
                | error e => rw [hres] at h; simp only [exbind_error] at h; cases h
                | ok rs =>
                    rw [hres] at h
                    simp only [exbind_ok] at h
                    by_cases hct : containsRefText rs = true
                    · rw [if_pos hct] at h
                      cases hrec : Utils.replace_refs n rs defs with
                      | error e => rw [hrec] at h; simp only [exbind_error] at h; cases h
                      | ok resolved =>
                          rw [hrec] at h
                          simp only [exbind_ok] at h
                          cases hupd : dictUpdateAny (Dict.erase fields "$ref") resolved with
                          | error e => rw [hupd] at h; simp only [exbind_error] at h; cases h
                          | ok nf =>
                              rw [hupd] at h
                              simp only [exbind_ok] at h
                              injection h with h2
                              exact ⟨nf, h2.symm⟩
                    · rw [if_neg hct] at h
                      simp only [exbind_ok] at h
                      cases hupd : dictUpdateAny (Dict.erase fields "$ref") rs with
                      | error e => rw [hupd] at h; simp only [exbind_error] at h; cases h
                      | ok nf =>
                          rw [hupd] at h
                          simp only [exbind_ok] at h
                          injection h with h2
                          exact ⟨nf, h2.symm⟩
            | null => cases h
            | bool b => cases h
            | num m => cases h
            | arr xs => cases h
            | obj l => cases h
      · rw [if_neg hkey] at h
        cases hf : Utils.replace_refs_fields n fields defs with
        | error e => rw [hf] at h; simp only [exbind_error] at h; cases h
        | ok outf =>
            rw [hf] at h
            simp only [exbind_ok] at h
            injection h with h2
            exact ⟨outf, h2.symm⟩

theorem walk_ok_arr (f : Nat) (xs : List Json) (defs out : Json)
    (h : Utils.replace_refs f (Json.arr xs) defs = Except.ok out) :
    ∃ n ys, f = n + 1 ∧ out = Json.arr ys ∧
      Utils.replace_refs_elems n xs defs = Except.ok ys := by
  cases f with
  | zero => simp [Utils.replace_refs] at h
  | succ n =>
      simp only [Utils.replace_refs] at h
      cases he : Utils.replace_refs_elems n xs defs with
      | error e => rw [he] at h; simp only [exbind_error] at h; cases h
      | ok ys =>
          rw [he] at h
          simp only [exbind_ok] at h
          injection h with h2
          exact ⟨n, ys, rfl, h2.symm, he⟩

theorem walk_ok_null (f : Nat) (defs out : Json)
    (h : Utils.replace_refs f Json.null defs = Except.ok out) : out = Json.null := by
  cases f with
  | zero => simp [Utils.replace_refs] at h
  | succ n =>
      simp only [Utils.replace_refs] at h
      injection h with h2
      exact h2.symm

theorem walk_ok_bool (f : Nat) (b : Bool) (defs out : Json)
    (h : Utils.replace_refs f (Json.bool b) defs = Except.ok out) : out = Json.bool b := by
  cases f with
  | zero => simp [Utils.replace_refs] at h
  | succ n =>
      simp only [Utils.replace_refs] at h
      injection h with h2
      exact h2.symm

theorem walk_ok_num (f : Nat) (m : Int) (defs out : Json)
    (h : Utils.replace_refs f (Json.num m) defs = Except.ok out) : out = Json.num m := by
  cases f with
  | zero => simp [Utils.replace_refs] at h
  | succ n =>
      simp only [Utils.replace_refs] at h
      injection h with h2
      exact h2.symm

theorem walk_ok_str (f : Nat) (s : String) (defs out : Json)
    (h : Utils.replace_refs f (Json.str s) defs = Except.ok out) : out = Json.str s := by
  cases f with
  | zero => simp [Utils.replace_refs] at h
  | succ n =>
      simp only [Utils.replace_refs] at h
      injection h with h2
      exact h2.symm

theorem elems_ok_nil (f : Nat) (defs : Json) (out : List Json)
    (h : Utils.replace_refs_elems f [] defs = Except.ok out) : out = [] := by
  cases f with
  | zero => simp [Utils.replace_refs_elems] at h
  | succ n =>
      simp only [Utils.replace_refs_elems] at h
      injection h with h2
      exact h2.symm

theorem elems_ok_cons (f : Nat) (x : Json) (rest : List Json) (defs : Json) (out : List Json)
    (h : Utils.replace_refs_elems f (x :: rest) defs = Except.ok out) :
    ∃ n y ys, f = n + 1 ∧ out = y :: ys ∧ Utils.replace_refs n x defs = Except.ok y ∧
      Utils.replace_refs_elems n rest defs = Except.ok ys := by
  cases f with
  | zero => simp [Utils.replace_refs_elems] at h
  | succ n =>
      simp only [Utils.replace_refs_elems] at h
      cases hx : Utils.replace_refs n x defs with
      | error e => rw [hx] at h; simp only [exbind_error] at h; cases h
      | ok y =>
          rw [hx] at h
          simp only [exbind_ok] at h
          cases hr : Utils.replace_refs_elems n rest defs with
          | error e => rw [hr] at h; simp only [exbind_error] at h; cases h
          | ok ys =>
              rw [hr] at h
              simp only [exbind_ok] at h
              injection h with h2
              exact ⟨n, y, ys, rfl, h2.symm, hx, hr⟩

theorem elems_ok_nil_inv (f : Nat) (xs : List Json) (defs : Json)
    (h : Utils.replace_refs_elems f xs defs = Except.ok []) : xs = [] := by
  cases xs with
  | nil => rfl
  | cons x rest =>
      obtain ⟨n, y, ys, _, hcons, _, _⟩ := elems_ok_cons f x rest defs [] h
      cases hcons

theorem walk_ok_str_inv (f : Nat) (x defs : Json) (s : String)
    (h : Utils.replace_refs f x defs = Except.ok (Json.str s)) : x = Json.str s := by
  cases x with
  | str s2 =>
      have h2 := walk_ok_str f s2 defs _ h
      injection h2 with h3
      rw [h3]
  | obj fields =>
      obtain ⟨g, hg⟩ := walk_ok_obj f fields defs _ h
      cases hg
  | arr xs =>
      obtain ⟨n, ys, _, hg, _⟩ := walk_ok_arr f xs defs _ h
      cases hg
  | null => cases walk_ok_null f defs _ h
  | bool b => cases walk_ok_bool f b defs _ h
  | num m => cases walk_ok_num f m defs _ h

theorem isRefPair_eq_walk (f : Nat) (x y defs : Json)
    (h : Utils.replace_refs f x defs = Except.ok y) (hx : isRefPair x = false) :
    isRefPair y = false := by
  cases hy : isRefPair y with
  | false => rfl
  | true =>
      exfalso
      cases y with
      | arr ys =>
          cases ys with
          | nil => simp [isRefPair] at hy
          | cons y1 yrest =>
              cases yrest with
              | nil => cases y1 <;> simp [isRefPair] at hy
              | cons y2 yrest2 =>
                  cases yrest2 with
                  | cons z zs => cases y1 <;> simp [isRefPair] at hy
                  | nil =>
                      cases y1 with
                      | str s =>
                          have hs : s = "$ref" := by simpa [isRefPair] using hy
                          cases x with
                          | obj fields =>
                              obtain ⟨g, hg⟩ := walk_ok_obj f fields defs _ h
                              cases hg
                          | null => cases walk_ok_null f defs _ h
                          | bool b => cases walk_ok_bool f b defs _ h
                          | num m => cases walk_ok_num f m defs _ h
                          | str s2 => cases walk_ok_str f s2 defs _ h
                          | arr xs =>
                              obtain ⟨n, ys2, hf, hout, helems⟩ := walk_ok_arr f xs defs _ h
                              injection hout with h2
                              subst h2
                              cases xs with
                              | nil => cases elems_ok_nil n defs _ helems
                              | cons x1 xrest =>
                                  obtain ⟨n2, w1, ws, hn2, hcons, hw1, hrest⟩ :=
                                    elems_ok_cons n x1 xrest defs _ helems
                                  injection hcons with ha hb
                                  subst ha
                                  subst hb
                                  have hx1 : x1 = Json.str s := walk_ok_str_inv n2 x1 defs s hw1
                                  cases xrest with
                                  | nil => cases elems_ok_nil n2 defs _ hrest
                                  | cons x2 xrest2 =>
                                      obtain ⟨n3, w2, ws2, hn3, hcons2, hw2, hrest2⟩ :=
                                        elems_ok_cons n2 x2 xrest2 defs _ hrest
                                      injection hcons2 with ha2 hb2
                                      have hx2 : xrest2 = [] :=
                                        elems_ok_nil_inv n3 xrest2 defs (by rw [← hb2] at hrest2; exact hrest2)
                                      subst hx2
                                      rw [hx1, hs] at hx
                                      simp [isRefPair] at hx
                      | null => simp [isRefPair] at hy
                      | bool b => simp [isRefPair] at hy
                      | num m => simp [isRefPair] at hy
                      | arr zs => simp [isRefPair] at hy
                      | obj l => simp [isRefPair] at hy
      | obj l => simp [isRefPair] at hy
      | null => simp [isRefPair] at hy
      | bool b => simp [isRefPair] at hy
      | num m => simp [isRefPair] at hy
      | str s => simp [isRefPair] at hy

theorem replace_refs_refFree_aux (fuel : Nat) :
    (∀ defs j out, refsIsolated j = true → noRefPairs j = true →
        refsIsolated defs = true → noRefPairs defs = true →
        Utils.replace_refs fuel j defs = Except.ok out →
        hasRefNode out = false ∧ noRefPairs out = true) ∧
    (∀ defs fs out, refsIsolatedFields fs = true → noRefPairsFields fs = true →
        refsIsolated defs = true → noRefPairs defs = true →
        Utils.replace_refs_fields fuel fs defs = Except.ok out →
        (∀ p ∈ out, hasRefNode p.2 = false ∧ noRefPairs p.2 = true) ∧
        out.map Prod.fst = fs.map Prod.fst) ∧
    (∀ defs xs out, refsIsolatedElems xs = true → noRefPairsElems xs = true →
        refsIsolated defs = true → noRefPairs defs = true →
        Utils.replace_refs_elems fuel xs defs = Except.ok out →
        ∀ y ∈ out, hasRefNode y = false ∧ noRefPairs y = true ∧ isRefPair y = false) := by
  induction fuel with
  | zero =>
      refine ⟨?_, ?_, ?_⟩
      · intro defs j out _ _ _ _ hrun
        exact absurd hrun (by simp [Utils.replace_refs])
      · intro defs fs out _ _ _ _ hrun
        exact absurd hrun (by simp [Utils.replace_refs_fields])
      · intro defs xs out _ _ _ _ hrun
        exact absurd hrun (by simp [Utils.replace_refs_elems])
  | succ n ih =>
      obtain ⟨ihj, ihf, ihe⟩ := ih
      refine ⟨?_, ?_, ?_⟩
      · intro defs j out hiso hnp hdefs hdnp hrun
        cases j with
        | obj fields =>
            simp only [Utils.replace_refs] at hrun
            by_cases hkey : Dict.hasKey fields "$ref" = true
            case pos =>
              rw [if_pos hkey] at hrun
              have hlen := (refsIsolated_obj_parts fields hiso).1 hkey
              have herase : Dict.erase fields "$ref" = [] :=
                erase_singleton_ref fields hlen hkey
              cases hg : Dict.get? fields "$ref" with
              | none => rw [hg] at hrun; cases hrun
              | some refv =>
                  rw [hg] at hrun
                  cases refv with
                  | str ref =>
                      dsimp only at hrun
                      cases hres : resolve_ref ref defs with
                      | error e =>
                          rw [hres] at hrun
                          simp only [exbind_error] at hrun
                          cases hrun
                      | ok ref_schema =>
                          rw [hres] at hrun
                          simp only [exbind_ok] at hrun
                          have hrs_iso : refsIsolated ref_schema = true :=
                            refsIsolated_resolve_ref ref defs ref_schema hdefs hres
                          have hrs_np : noRefPairs ref_schema = true :=
                            noRefPairs_resolve_ref ref defs ref_schema hdnp hres
                          by_cases hct : containsRefText ref_schema = true
                          case pos =>
                            rw [if_pos hct] at hrun
                            cases hrec : Utils.replace_refs n ref_schema defs with
                            | error e =>
                                rw [hrec] at hrun
                                simp only [exbind_error] at hrun
                                cases hrun
                            | ok resolved =>
                                rw [hrec] at hrun
                                simp only [exbind_ok] at hrun
                                obtain ⟨hres_free, hres_np⟩ :=
                                  ihj defs ref_schema resolved hrs_iso hrs_np hdefs hdnp hrec
                                cases hupd :
                                    dictUpdateAny (Dict.erase fields "$ref") resolved with
                                | error e =>
                                    rw [hupd] at hrun
                                    simp only [exbind_error] at hrun
                                    cases hrun
                                | ok nf =>
                                    rw [hupd] at hrun
                                    simp only [exbind_ok] at hrun
                                    injection hrun with h2
                                    subst h2
                                    obtain ⟨hh1, hh2⟩ := dictUpdateAny_ok_props
                                      (Dict.erase fields "$ref") resolved nf
                                      (by rw [herase]; rfl) (by rw [herase]; rfl)
                                      hres_free hres_np hupd
                                    exact ⟨hh1, by simpa [noRefPairs] using hh2⟩
                          case neg =>
                            rw [if_neg hct] at hrun
                            simp only [exbind_ok] at hrun
                            have hfree : hasRefNode ref_schema = false :=
                              hasRefNode_false_of_not_containsRefText ref_schema
                                (by simpa using hct)
                            cases hupd :
                                dictUpdateAny (Dict.erase fields "$ref") ref_schema with
                            | error e =>
                                rw [hupd] at hrun
                                simp only [exbind_error] at hrun
                                cases hrun
                            | ok nf =>
                                rw [hupd] at hrun
                                simp only [exbind_ok] at hrun
                                injection hrun with h2
                                subst h2
                                obtain ⟨hh1, hh2⟩ := dictUpdateAny_ok_props
                                  (Dict.erase fields "$ref") ref_schema nf
                                  (by rw [herase]; rfl) (by rw [herase]; rfl)
                                  hfree hrs_np hupd
                                exact ⟨hh1, by simpa [noRefPairs] using hh2⟩
                  | null => cases hrun
                  | bool b => cases hrun
                  | num m => cases hrun
                  | arr xs => cases hrun
                  | obj l => cases hrun
            case neg =>
              have hkey2 : Dict.hasKey fields "$ref" = false := by simpa using hkey
              rw [if_neg hkey] at hrun
              cases hflds : Utils.replace_refs_fields n fields defs with
              | error e =>
                  rw [hflds] at hrun
                  simp only [exbind_error] at hrun
                  cases hrun
              | ok outf =>
                  rw [hflds] at hrun
                  simp only [exbind_ok] at hrun
                  injection hrun with h2
                  subst h2
                  have hfi : refsIsolatedFields fields = true :=
                    (refsIsolated_obj_parts fields hiso).2
                  have hnpf : noRefPairsFields fields = true := by
                    simpa [noRefPairs] using hnp
                  obtain ⟨hvals, hkeys⟩ := ihf defs fields outf hfi hnpf hdefs hdnp hflds
                  constructor
                  · rw [hasRefNode_obj_false_iff]
                    refine ⟨?_, fun p hp => (hvals p hp).1⟩
                    rw [hasKey_eq_of_keys_eq outf fields "$ref" hkeys]
                    exact hkey2
                  · rw [noRefPairs_obj_eq, noRefPairsFields_iff]
                    exact fun p hp => (hvals p hp).2
        | arr elems =>
            simp only [Utils.replace_refs] at hrun
            cases helems : Utils.replace_refs_elems n elems defs with
            | error e =>
                rw [helems] at hrun
                simp only [exbind_error] at hrun
                cases hrun
            | ok outxs =>
                rw [helems] at hrun
                simp only [exbind_ok] at hrun
                injection hrun with h2
                subst h2
                have hie : refsIsolatedElems elems = true := by
                  simpa [refsIsolated] using hiso
                have hne : noRefPairsElems elems = true := by
                  simpa [noRefPairs] using hnp
                have hfacts := ihe defs elems outxs hie hne hdefs hdnp helems
                constructor
                · rw [hasRefNode_arr_false_iff]
                  exact fun y hy => (hfacts y hy).1
                · rw [noRefPairs_arr_eq, noRefPairsElems_iff]
                  exact fun y hy => ⟨(hfacts y hy).2.2, (hfacts y hy).2.1⟩
        | null =>
            simp only [Utils.replace_refs] at hrun
            injection hrun with h2
            subst h2
            exact ⟨rfl, rfl⟩
        | bool b =>
            simp only [Utils.replace_refs] at hrun
            injection hrun with h2
            subst h2
            exact ⟨rfl, rfl⟩
        | num m =>
            simp only [Utils.replace_refs] at hrun
            injection hrun with h2
            subst h2
            exact ⟨rfl, rfl⟩
        | str s =>
            simp only [Utils.replace_refs] at hrun
            injection hrun with h2
            subst h2
            exact ⟨rfl, rfl⟩
      · intro defs fs out hiso hnp hdefs hdnp hrun
        cases fs with
        | nil =>
            simp only [Utils.replace_refs_fields] at hrun
            injection hrun with h2
            subst h2
            exact ⟨by simp, rfl⟩
        | cons p rest =>
            simp only [Utils.replace_refs_fields] at hrun
            cases hv : Utils.replace_refs n p.2 defs with
            | error e =>
                rw [hv] at hrun
                simp only [exbind_error] at hrun
                cases hrun
            | ok v =>
                rw [hv] at hrun
                simp only [exbind_ok] at hrun
                cases hrest : Utils.replace_refs_fields n rest defs with
                | error e =>
                    rw [hrest] at hrun
                    simp only [exbind_error] at hrun
                    cases hrun
                | ok rest2 =>
                    rw [hrest] at hrun
                    simp only [exbind_ok] at hrun
                    injection hrun with h2
                    subst h2
                    have hall := (refsIsolatedFields_iff (p :: rest)).mp hiso
                    have hnall := (noRefPairsFields_iff (p :: rest)).mp hnp
                    have hp_iso : refsIsolated p.2 = true :=
                      hall p (List.mem_cons_self p rest)
                    have hp_np : noRefPairs p.2 = true :=
                      hnall p (List.mem_cons_self p rest)
                    have hrest_iso : refsIsolatedFields rest = true := by
                      rw [refsIsolatedFields_iff]
                      intro q hq
                      exact hall q (List.mem_cons_of_mem p hq)
                    have hrest_np : noRefPairsFields rest = true := by
                      rw [noRefPairsFields_iff]
                      intro q hq
                      exact hnall q (List.mem_cons_of_mem p hq)
                    obtain ⟨hvf, hvn⟩ := ihj defs p.2 v hp_iso hp_np hdefs hdnp hv
                    obtain ⟨hvals, hkeys⟩ :=
                      ihf defs rest rest2 hrest_iso hrest_np hdefs hdnp hrest
                    constructor
                    · intro q hq
                      rcases List.mem_cons.mp hq with h1 | h1
                      · rw [h1]
                        exact ⟨hvf, hvn⟩
                      · exact hvals q h1
                    · simp [hkeys]
      · intro defs xs out hiso hnp hdefs hdnp hrun
        cases xs with
        | nil =>
            simp only [Utils.replace_refs_elems] at hrun
            injection hrun with h2
            subst h2
            simp
        | cons x rest =>
            simp only [Utils.replace_refs_elems] at hrun
            cases hx : Utils.replace_refs n x defs with
            | error e =>
                rw [hx] at hrun
                simp only [exbind_error] at hrun
                cases hrun
            | ok y =>
                rw [hx] at hrun
                simp only [exbind_ok] at hrun
                cases hrest : Utils.replace_refs_elems n rest defs with
                | error e =>
                    rw [hrest] at hrun
                    simp only [exbind_error] at hrun
                    cases hrun
                | ok ys =>
                    rw [hrest] at hrun
                    simp only [exbind_ok] at hrun
                    injection hrun with h2
                    subst h2
                    have hall := (refsIsolatedElems_iff (x :: rest)).mp hiso
                    have hnall := (noRefPairsElems_iff (x :: rest)).mp hnp
                    have hx_iso : refsIsolated x = true :=
                      hall x (List.mem_cons_self x rest)
                    obtain ⟨hx_rp, hx_np⟩ := hnall x (List.mem_cons_self x rest)
                    have hrest_iso : refsIsolatedElems rest = true := by
                      rw [refsIsolatedElems_iff]
                      intro z hz
                      exact hall z (List.mem_cons_of_mem x hz)
                    have hrest_np : noRefPairsElems rest = true := by
                      rw [noRefPairsElems_iff]
                      intro z hz
                      exact hnall z (List.mem_cons_of_mem x hz)
                    obtain ⟨hyf, hyn⟩ := ihj defs x y hx_iso hx_np hdefs hdnp hx
                    have hys := ihe defs rest ys hrest_iso hrest_np hdefs hdnp hrest
                    intro z hz
                    rcases List.mem_cons.mp hz with h1 | h1
                    · rw [h1]
                      exact ⟨hyf, hyn, isRefPair_eq_walk n x y defs hx hx_rp⟩
                    · exact hys z h1

theorem reshape_preserves_refFree (j r : Json) (hj : hasRefNode j = false)
    (h : reshape j = Except.ok r) : hasRefNode r = false := by
  cases j with
  | obj fields =>
      rw [hasRefNode_obj_false_iff] at hj
      unfold reshape at h
      simp only [getField] at h
      cases hp : Dict.get? fields "properties" with
      | none => rw [hp] at h; simp only [exbind_error] at h; cases h
      | some pv =>
      rw [hp] at h
      simp only [exbind_ok] at h
      cases hr : Dict.get? fields "required" with
      | none => rw [hr] at h; simp only [exbind_error] at h; cases h
      | some rv =>
      rw [hr] at h
      simp only [exbind_ok] at h
      cases hy : Dict.get? fields "type" with
      | none => rw [hy] at h; simp only [exbind_error] at h; cases h
      | some yv =>
      rw [hy] at h
      simp only [exbind_ok] at h
      cases ht : Dict.get? (Dict.assign fields "parameters"
          (Json.obj [("properties", pv), ("required", rv), ("type", yv)])) "title" with
      | none => rw [ht] at h; simp only [exbind_error] at h; cases h
      | some tv =>
      rw [ht] at h
      simp only [exbind_ok] at h
      injection h with h2
      subst h2
      have hpv : hasRefNode pv = false :=
        hj.2 _ (Dict.mem_of_get?_eq_some fields "properties" pv hp)
      have hrv : hasRefNode rv = false :=
        hj.2 _ (Dict.mem_of_get?_eq_some fields "required" rv hr)
      have hyv : hasRefNode yv = false :=
        hj.2 _ (Dict.mem_of_get?_eq_some fields "type" yv hy)
      have hP : hasRefNode
          (Json.obj [("properties", pv), ("required", rv), ("type", yv)]) = false := by
        rw [hasRefNode_obj_false_iff]
        refine ⟨rfl, ?_⟩
        intro q hq
        rcases List.mem_cons.mp hq with h1 | h1
        · rw [h1]; exact hpv
        rcases List.mem_cons.mp h1 with h2 | h2
        · rw [h2]; exact hrv
        rcases List.mem_cons.mp h2 with h3 | h3
        · rw [h3]; exact hyv
        · cases h3
      have htv : hasRefNode tv = false := by
        have hmem := Dict.mem_of_get?_eq_some _ "title" tv ht
        rcases Dict.mem_assign fields "parameters" _ ("title", tv) hmem with h1 | h1
        · exact hj.2 _ h1
        · injection h1 with ha hb
          exact absurd ha (by decide)
      have hmem4 : ∀ q : String × Json,
          q ∈ Dict.erase (Dict.erase (Dict.erase (Dict.erase
            (Dict.assign (Dict.assign fields "parameters"
              (Json.obj [("properties", pv), ("required", rv), ("type", yv)])) "name" tv)
            "title") "properties") "required") "type" →
          q ∈ fields ∨
            q = ("parameters", Json.obj [("properties", pv), ("required", rv), ("type", yv)]) ∨
            q = ("name", tv) := by
        intro q hq
        have hq2 := Dict.mem_erase _ _ q (Dict.mem_erase _ _ q
          (Dict.mem_erase _ _ q (Dict.mem_erase _ _ q hq)))
        rcases Dict.mem_assign _ "name" tv q hq2 with h1 | h1
        · rcases Dict.mem_assign _ "parameters" _ q h1 with h2 | h2
          · exact Or.inl h2
          · exact Or.inr (Or.inl h2)
        · exact Or.inr (Or.inr h1)
      rw [hasRefNode_obj_false_iff]
      constructor
      · cases hk : Dict.hasKey _ "$ref" with
        | false => rfl
        | true =>
            obtain ⟨q, hq, hq1⟩ := (Dict.hasKey_iff_exists _ _).mp hk
            rcases hmem4 q hq with h1 | h1 | h1
            · have h2 := (Dict.hasKey_iff_exists fields "$ref").mpr ⟨q, h1, hq1⟩
              rw [hj.1] at h2; cases h2
            · rw [h1] at hq1; simp at hq1
            · rw [h1] at hq1; simp at hq1
      · intro q hq
        rcases hmem4 q hq with h1 | h1 | h1
        · exact hj.2 q h1
        · rw [h1]; exact hP
        · rw [h1]; exact htv
  | null => simp [reshape] at h
  | bool b => simp [reshape] at h
  | num m => simp [reshape] at h
  | str s => simp [reshape] at h
  | arr xs => simp [reshape] at h

/-- C5 (amended, holds for the utils implementation): for any schema in
which every reference node carries `$ref` as its only key (the shape
Pydantic emits for a reference slot) and no array anywhere contains a
two-element `["$ref", v]` pair (the iterable-of-pairs form through which
`dict.update` could splice a literal `$ref` key into an object), a single
successful call to `replace_refs_with_defs` returns a document with no
reference node anywhere — chained references through the definitions table
are fully inlined. (The tools implementation leaves chained references
unresolved.) -/
theorem utils_result_reference_free (fuel : Nat) (schema : List (String × Json))
    (hiso : refsIsolated (Json.obj schema) = true)
    (hnp : noRefPairs (Json.obj schema) = true)
    (hok : isOkResult (Utils.replace_refs_with_defs fuel schema) = true) :
    resultRefFree (Utils.replace_refs_with_defs fuel schema) = true := by
  cases hres : Utils.replace_refs_with_defs fuel schema with
  | error e => rw [hres] at hok; cases hok
  | ok r =>
      suffices hfree : hasRefNode r = false by simp [resultRefFree, hfree]
      have hub := hres
      unfold Utils.replace_refs_with_defs at hub
      cases hphase : Utils.resolution_phase fuel schema with
      | error e => rw [hphase] at hub; simp only [exbind_error] at hub; cases hub
      | ok mid =>
          rw [hphase] at hub
          simp only [exbind_ok] at hub
          have hmid : hasRefNode mid = false := by
            have hph := hphase
            unfold Utils.resolution_phase at hph
            by_cases hguard :
                (!(Dict.hasKey schema "$defs") && containsRefText (Json.obj schema)) = true
            · rw [if_pos hguard] at hph; cases hph
            · rw [if_neg hguard] at hph
              cases hg : Dict.get? schema "$defs" with
              | none =>
                  rw [hg] at hph
                  injection hph with h2
                  subst h2
                  have hdk : Dict.hasKey schema "$defs" = false := by
                    rw [Dict.hasKey_eq_isSome, hg]; rfl
                  have hguard2 :
                      (!(Dict.hasKey schema "$defs") &&
                        containsRefText (Json.obj schema)) = false := by
                    simpa using hguard
                  rw [hdk] at hguard2
                  simp only [Bool.not_false, Bool.true_and] at hguard2
                  exact hasRefNode_false_of_not_containsRefText _ hguard2
              | some defs =>
                  rw [hg] at hph
                  dsimp only at hph
                  have hdefs_iso : refsIsolated defs = true := by
                    have hmem := Dict.mem_of_get?_eq_some schema "$defs" defs hg
                    exact (refsIsolatedFields_iff schema).mp
                      (refsIsolated_obj_parts schema hiso).2 ("$defs", defs) hmem
                  have hdefs_np : noRefPairs defs = true := by
                    have hmem := Dict.mem_of_get?_eq_some schema "$defs" defs hg
                    exact (noRefPairsFields_iff schema).mp
                      (by simpa [noRefPairs] using hnp) ("$defs", defs) hmem
                  have hkr : Dict.hasKey schema "$ref" = false := by
                    by_cases hkr2 : Dict.hasKey schema "$ref" = true
                    · have hlen := (refsIsolated_obj_parts schema hiso).1 hkr2
                      cases schema with
                      | nil => cases hkr2
                      | cons p rest =>
                          cases rest with
                          | cons q r2 => simp at hlen
                          | nil =>
                              have hp : (p.1 == "$ref") = true := by
                                simpa [Dict.hasKey] using hkr2
                              have hp2 : p.1 = "$ref" := by simpa using hp
                              rw [Dict.get?_cons] at hg
                              rw [hp2] at hg
                              simp [Dict.get?] at hg
                    · simpa using hkr2
                  have hbody_iso :
                      refsIsolated (Json.obj (Dict.erase schema "$defs")) = true := by
                    simp only [refsIsolated, Bool.and_eq_true]
                    constructor
                    · rw [Dict.hasKey_erase_ne _ _ _ (by decide), hkr]
                      simp
                    · rw [refsIsolatedFields_iff]
                      intro p hp
                      exact (refsIsolatedFields_iff schema).mp
                        (refsIsolated_obj_parts schema hiso).2 p (Dict.mem_erase _ _ p hp)
                  have hbody_np :
                      noRefPairs (Json.obj (Dict.erase schema "$defs")) = true := by
                    rw [noRefPairs_obj_eq, noRefPairsFields_iff]
                    intro p hp
                    exact (noRefPairsFields_iff schema).mp
                      (by simpa [noRefPairs] using hnp) p (Dict.mem_erase _ _ p hp)
                  exact ((replace_refs_refFree_aux fuel).1 defs _ mid
                    hbody_iso hbody_np hdefs_iso hdefs_np hph).1
          exact reshape_preserves_refFree mid r hmid hub

/-- C5 witness: the repository's own nested-reference schema, fully inlined
by the utils implementation. -/
theorem utils_result_reference_free_witness :
    refsIsolated (Json.obj nestedRefSchema) = true ∧
    noRefPairs (Json.obj nestedRefSchema) = true ∧
    resultRefFree (Utils.replace_refs_with_defs 30 nestedRefSchema) = true :=
  ⟨rfl, rfl, utils_result_reference_free 30 nestedRefSchema rfl rfl rfl⟩

/-- Boundary of the amended C5: a definition that is a list of
two-element `["$ref", v]` pairs is spliced by `dict.update`'s
iterable-of-pairs semantics, which reintroduces a literal `$ref` key the
walk never revisits — so the pair hypothesis cannot be dropped. -/
theorem utils_pair_splice_keeps_ref :
    refsIsolated (Json.obj pairSpliceSchema) = true ∧
    noRefPairs (Json.obj pairSpliceSchema) = false ∧
    resultHasRef (Utils.replace_refs_with_defs 30 pairSpliceSchema) = true :=
  ⟨rfl, rfl, rfl⟩

end KinKernel
